import Mathlib

/-! Aprnom arena server: shallow embedding of `src/server.js`.

The server keeps three JavaScript objects used as maps (`players`, `bullets`, `pickups`) and a
counter `bulletCounter`.  Socket handlers and the `setInterval` callback mutate them and emit
socket.io events.  Here every handler is a pure function from the world before the call to an
`Outcome`: the world after the call, the events emitted (in order) and whether the handler
raised a `TypeError`.

Modelling conventions.
* A JavaScript object used as a map is an association list in `for ... in` order.  All keys used
  by the server (`socket.id`, `'b' + n`, `'p' + i`) are non-index strings, so that order is
  insertion order.  Only own properties are modelled.
* Numbers that come from the client (`x`, `y`, `dir`, `angle`) are `JsNum`: a rational, `NaN`,
  or `undefined` (a missing field).  Arithmetic is exact rational arithmetic; rounding of
  IEEE doubles is not modelled.  Non-numeric payload fields are outside the model.
* `hp`, `ammo`, `medkit` only ever receive integer arithmetic on the server and are `Int`.
* `Math.cos`, `Math.sin` and `Math.random` belong to the platform: the first two are a
  parameter (`JsMath`), the random draws are carried by the inputs.
-/

namespace Aprnom

/-! ## JavaScript numbers -/

/-- A number-valued field as the server reads it: `undefined`, `NaN` or a finite number. -/
inductive JsNum where
  | undef : JsNum
  | nan : JsNum
  | num : ℚ → JsNum
  deriving DecidableEq

namespace JsNum

/-- JavaScript `a + b` on numbers and `undefined` (`undefined` converts to `NaN`). -/
def add : JsNum → JsNum → JsNum
  | num a, num b => num (a + b)
  | _, _ => nan

/-- JavaScript `a - b`. -/
def sub : JsNum → JsNum → JsNum
  | num a, num b => num (a - b)
  | _, _ => nan

/-- JavaScript `a * b`. -/
def mul : JsNum → JsNum → JsNum
  | num a, num b => num (a * b)
  | _, _ => nan

/-- JavaScript `a < b`: false as soon as one side is `NaN`. -/
def lt : JsNum → JsNum → Bool
  | num a, num b => decide (a < b)
  | _, _ => false

end JsNum

/-- The two platform functions used by the shoot handler, `Math.cos` and `Math.sin`. -/
structure JsMath where
  cos : JsNum → JsNum
  sin : JsNum → JsNum

/-! ## Objects used as maps -/

/-- The own properties of an object, in iteration order. -/
abbrev JsMap (α : Type) := List (String × α)

namespace JsMap

variable {α : Type}

/-- Property read `m[k]`; `none` is `undefined`. -/
def get : JsMap α → String → Option α
  | [], _ => none
  | (k', v) :: m, k => if k' = k then some v else get m k

/-- Property write `m[k] = v`: an existing key keeps its place, a new key goes last. -/
def set : JsMap α → String → α → JsMap α
  | [], k, v => [(k, v)]
  | (k', v') :: m, k, v => if k' = k then (k, v) :: m else (k', v') :: set m k v

/-- Property removal `delete m[k]`. -/
def del (m : JsMap α) (k : String) : JsMap α :=
  m.filter (fun e => decide (e.1 ≠ k))

/-- The keys in iteration order. -/
def keys (m : JsMap α) : List String := m.map Prod.fst

end JsMap

/-! ## Data model -/

/-- The `inventory` sub-object of a player. -/
structure Inventory where
  medkit : Int
  ammo : Int
  deriving DecidableEq

/-- A record of the `players` map (created in the `connection` handler). -/
structure Player where
  id : String
  x : JsNum
  y : JsNum
  dir : JsNum
  hp : Int
  name : String
  inventory : Inventory
  alive : Bool
  speed : Int
  deriving DecidableEq

/-- A record of the `bullets` map (created in the `shoot` handler). -/
structure Bullet where
  id : String
  owner : String
  x : JsNum
  y : JsNum
  vx : JsNum
  vy : JsNum
  life : ℚ
  deriving DecidableEq

/-- A record of the `pickups` map (`createPickup`). -/
structure Pickup where
  id : String
  x : Int
  y : Int
  type : String
  amount : Int
  taken : Bool
  deriving DecidableEq

/-- The module-level mutable state of `server.js`. -/
structure World where
  players : JsMap Player
  bullets : JsMap Bullet
  pickups : JsMap Pickup
  bulletCounter : Nat
  deriving DecidableEq

/-- The socket.io events the server emits, with their payloads. -/
inductive Event where
  | init (id : String) (players : JsMap Player) (pickups : JsMap Pickup)
  | playerJoined (p : Player)
  | bulletSpawn (b : Bullet)
  | pickupTaken (pickupId : String) (byId : String) (id : String) (hp : Int) (inventory : Inventory)
  | playerUpdate (p : Player)
  | playerLeft (id : String)
  | playerDied (id : String) (byId : String)
  | playerHit (id : String) (hp : Int) (byId : String)
  | worldState (players : JsMap Player) (bullets : JsMap Bullet) (pickups : JsMap Pickup)
  deriving DecidableEq

/-- Payload of `playerInput`, `{x, y, dir}`; a missing field reads as `undefined`. -/
structure InputData where
  x : JsNum
  y : JsNum
  dir : JsNum
  deriving DecidableEq

/-- Payload of `shoot`, `{x, y, angle}`; a missing field reads as `undefined`. -/
structure ShootData where
  x : JsNum
  y : JsNum
  angle : JsNum
  deriving DecidableEq

/-- What one handler call leaves behind: the mutated world, the events emitted and whether the
call ended in an uncaught `TypeError` (mutations made before the throw stay). -/
structure Outcome where
  world : World
  events : List Event
  threw : Bool
  deriving DecidableEq

/-- A handler that returns without emitting. -/
def Outcome.quiet (w : World) : Outcome := ⟨w, [], false⟩

/-! ## World seeding -/

/-- `createPickup(id)`, with the two `rand` draws given. -/
def createPickup (id : String) (x y : Int) : Pickup :=
  { id := id, x := x, y := y, type := "health", amount := 25, taken := false }

/-- The seeding loop `for (let i = 0; i < 12; i++) pickups['p' + i] = createPickup('p' + i)`;
`rnd i` is the pair of `rand` draws of round `i`. -/
def seedPickups (rnd : Nat → Int × Int) : JsMap Pickup :=
  (List.range 12).foldl
    (fun m i => JsMap.set m ("p" ++ toString i) (createPickup ("p" ++ toString i) (rnd i).1 (rnd i).2))
    []

/-- The state when the module has been loaded. -/
def initWorld (rnd : Nat → Int × Int) : World :=
  { players := [], bullets := [], pickups := seedPickups rnd, bulletCounter := 0 }

/-! ## Socket handlers -/

/-- The player record built on `connection`, with the two `rand` draws given. -/
def newPlayer (id : String) (x y : Int) : Player :=
  { id := id, x := JsNum.num x, y := JsNum.num y, dir := JsNum.num 0, hp := 100,
    name := "Player_" ++ id.take 4, inventory := { medkit := 0, ammo := 30 },
    alive := true, speed := 200 }

/-- The `io.on('connection')` callback up to the registration of the handlers. -/
def onConnection (w : World) (id : String) (x y : Int) : Outcome :=
  let players := JsMap.set w.players id (newPlayer id x y)
  { world := { w with players := players }
    events := [Event.init id players w.pickups, Event.playerJoined (newPlayer id x y)]
    threw := false }

/-- The `playerInput` handler; `data = none` is a missing (`undefined`/`null`) payload. -/
def onPlayerInput (w : World) (id : String) (data : Option InputData) : Outcome :=
  match JsMap.get w.players id with
  | none => Outcome.quiet w
  | some p =>
    if !p.alive then Outcome.quiet w
    else
      match data with
      | none => ⟨w, [], true⟩
      | some d =>
        Outcome.quiet { w with players := JsMap.set w.players id { p with x := d.x, y := d.y, dir := d.dir } }

/-- The `shoot` handler; `payload = none` is a missing (`undefined`/`null`) payload, on which
`payload.x` raises after the ammunition and the counter have been updated. -/
def onShoot (M : JsMath) (w : World) (id : String) (payload : Option ShootData) : Outcome :=
  match JsMap.get w.players id with
  | none => Outcome.quiet w
  | some p =>
    if !p.alive then Outcome.quiet w
    else if p.inventory.ammo ≤ 0 then Outcome.quiet w
    else
      let p1 : Player := { p with inventory := { p.inventory with ammo := p.inventory.ammo - 1 } }
      let players := JsMap.set w.players id p1
      let counter := w.bulletCounter + 1
      let bId := "b" ++ toString counter
      match payload with
      | none => ⟨{ w with players := players, bulletCounter := counter }, [], true⟩
      | some pl =>
        let b : Bullet :=
          { id := bId, owner := id, x := pl.x, y := pl.y,
            vx := JsNum.mul (M.cos pl.angle) (JsNum.num 600),
            vy := JsNum.mul (M.sin pl.angle) (JsNum.num 600),
            life := 2000 }
        { world := { w with players := players, bullets := JsMap.set w.bullets bId b,
                            bulletCounter := counter }
          events := [Event.bulletSpawn b]
          threw := false }

/-- The `pickup` handler. -/
def onPickup (w : World) (id : String) (pickupId : String) : Outcome :=
  match JsMap.get w.players id, JsMap.get w.pickups pickupId with
  | some p, some pick =>
    if pick.taken || !p.alive then Outcome.quiet w
    else
      let hp := if pick.type = "health" then min 100 (p.hp + pick.amount) else p.hp
      let inv : Inventory := { p.inventory with medkit := p.inventory.medkit + 1 }
      let p1 : Player := { p with hp := hp, inventory := inv }
      { world := { w with players := JsMap.set w.players id p1,
                          pickups := JsMap.set w.pickups pickupId { pick with taken := true } }
        events := [Event.pickupTaken pickupId id id hp inv]
        threw := false }
  | _, _ => Outcome.quiet w

/-- The `useMedkit` handler. -/
def onUseMedkit (w : World) (id : String) : Outcome :=
  match JsMap.get w.players id with
  | none => Outcome.quiet w
  | some p =>
    if !p.alive then Outcome.quiet w
    else if 0 < p.inventory.medkit then
      let p1 : Player :=
        { p with inventory := { p.inventory with medkit := p.inventory.medkit - 1 },
                 hp := min 100 (p.hp + 40) }
      { world := { w with players := JsMap.set w.players id p1 }
        events := [Event.playerUpdate p1]
        threw := false }
    else Outcome.quiet w

/-- The `disconnect` handler. -/
def onDisconnect (w : World) (id : String) : Outcome :=
  { world := { w with players := JsMap.del w.players id }
    events := [Event.playerLeft id]
    threw := false }

/-! ## The tick -/

/-- The first three statements of the bullet loop body: `b.x += b.vx * (1/60)`,
`b.y += b.vy * (1/60)`, `b.life -= 1000/60`. -/
def moveBullet (b : Bullet) : Bullet :=
  { b with x := JsNum.add b.x (JsNum.mul b.vx (JsNum.num (1 / 60))),
           y := JsNum.add b.y (JsNum.mul b.vy (JsNum.num (1 / 60))),
           life := b.life - 1000 / 60 }

/-- The value `dist2` of the collision loop for player `p` and (moved) bullet `b`. -/
def dist2 (p : Player) (b : Bullet) : JsNum :=
  let dx := JsNum.sub p.x b.x
  let dy := JsNum.sub p.y b.y
  JsNum.add (JsNum.mul dx dx) (JsNum.mul dy dy)

/-- The test that lets the collision loop reach its hit branch for the entry `pid ↦ p`. -/
def isTarget (b : Bullet) (pid : String) (p : Player) : Bool :=
  p.alive && decide (pid ≠ b.owner) && JsNum.lt (dist2 p b) (JsNum.num (20 * 20))

/-- The hit branch: the damaged player record and the event emitted. -/
def applyHit (b : Bullet) (p : Player) : Player × Event :=
  if p.hp - 20 ≤ 0 then
    ({ p with hp := 0, alive := false }, Event.playerDied p.id b.owner)
  else
    ({ p with hp := p.hp - 20 }, Event.playerHit p.id (p.hp - 20) b.owner)

/-- The inner loop `for (const pid in players)` for the moved bullet `b`: `none` when the loop
runs to its end, otherwise the players after the hit and the event emitted before `break`. -/
def hitScan (b : Bullet) : JsMap Player → Option (JsMap Player × Event)
  | [] => none
  | (pid, p) :: rest =>
    if isTarget b pid p then
      some ((pid, (applyHit b p).1) :: rest, (applyHit b p).2)
    else
      (hitScan b rest).map (fun r => ((pid, p) :: r.1, r.2))

/-- One round of the outer loop for the entry `id ↦ b`: the players afterwards, the entry that
stays in `bullets` under this key (`none` when it has been deleted) and the events emitted. -/
def bulletStep (players : JsMap Player) (b : Bullet) :
    JsMap Player × Option Bullet × List Event :=
  match hitScan (moveBullet b) players with
  | some (players1, ev) => (players1, none, [ev])
  | none =>
    if (moveBullet b).life ≤ 0 then (players, none, [])
    else (players, some (moveBullet b), [])

/-- The outer loop `for (const id in bullets)`.  Each own key is visited once, in order; the
body deletes at most the key it is visiting, so the loop is a pass over the entries. -/
def tickBullets (players : JsMap Player) :
    JsMap Bullet → JsMap Player × JsMap Bullet × List Event
  | [] => (players, [], [])
  | (id, b) :: rest =>
    let r := bulletStep players b
    let s := tickBullets r.1 rest
    (s.1, (match r.2.1 with
            | some b1 => (id, b1) :: s.2.1
            | none => s.2.1), r.2.2 ++ s.2.2)

/-- The `setInterval` callback: the bullet loop, then the `worldState` broadcast. -/
def tick (w : World) : Outcome :=
  let s := tickBullets w.players w.bullets
  { world := { w with players := s.1, bullets := s.2.1 }
    events := s.2.2 ++ [Event.worldState s.1 s.2.1 w.pickups]
    threw := false }

/-! ## Runs of the server -/

/-- What can happen to the server: a socket connects (with the two spawn draws), a message of a
socket arrives, or the timer fires. -/
inductive Msg where
  | connect (id : String) (x y : Int)
  | disconnect (id : String)
  | playerInput (id : String) (data : Option InputData)
  | shoot (id : String) (payload : Option ShootData)
  | pickup (id : String) (pickupId : String)
  | useMedkit (id : String)
  | tick
  deriving DecidableEq

/-- Dispatch of one happening to its handler. -/
def step (M : JsMath) (w : World) : Msg → Outcome
  | Msg.connect id x y => onConnection w id x y
  | Msg.disconnect id => onDisconnect w id
  | Msg.playerInput id data => onPlayerInput w id data
  | Msg.shoot id payload => onShoot M w id payload
  | Msg.pickup id pickupId => onPickup w id pickupId
  | Msg.useMedkit id => onUseMedkit w id
  | Msg.tick => tick w

/-- The world after a sequence of happenings. -/
def run (M : JsMath) (w : World) : List Msg → World
  | [] => w
  | m :: ms => run M (step M w m).world ms

/-- All events emitted along a sequence of happenings. -/
def runEvents (M : JsMath) (w : World) : List Msg → List Event
  | [] => []
  | m :: ms => (step M w m).events ++ runEvents M (step M w m).world ms

/-- The worlds the server can be in: the seeded world, and whatever a handler call or a tick
leaves behind (also a call that raised: its mutations stay).  Spawn draws and socket ids are
not restricted, so this contains every world the running server can reach. -/
inductive Reachable (M : JsMath) : World → Prop where
  | start (rnd : Nat → Int × Int) : Reachable M (initWorld rnd)
  | next {w : World} (m : Msg) : Reachable M w → Reachable M (step M w m).world

/-- Truncated series standing in for `Math.cos`/`Math.sin` where a concrete `JsMath` is needed;
they are exact at `0`. -/
def seriesMath : JsMath where
  cos := fun a => match a with
    | JsNum.num q => JsNum.num (1 - q ^ 2 / 2 + q ^ 4 / 24)
    | _ => JsNum.nan
  sin := fun a => match a with
    | JsNum.num q => JsNum.num (q - q ^ 3 / 6 + q ^ 5 / 120)
    | _ => JsNum.nan

/-! ## Predicates used in the statements -/

/-- Health is within `[0, 100]` and the player is dead exactly at health `0`. -/
def HealthOk (p : Player) : Prop :=
  0 ≤ p.hp ∧ p.hp ≤ 100 ∧ (p.alive = false ↔ p.hp = 0)

/-- Every record of a players map satisfies `HealthOk`. -/
def AllHealthOk (players : JsMap Player) : Prop :=
  ∀ e ∈ players, HealthOk e.2

/-- Every pickup is a health pickup restoring 25, as `createPickup` builds them. -/
def PickupsSeeded (pickups : JsMap Pickup) : Prop :=
  ∀ e ∈ pickups, e.2.type = "health" ∧ e.2.amount = 25

/-- The number a list of decimal digit characters stands for. -/
def digitsValue (cs : List Char) : Nat :=
  cs.foldl (fun acc c => acc * 10 + (c.toNat - 48)) 0

/-- A players entry whose `id` field is the key it is stored under and whose ammunition is not
negative. -/
def EntryOk (e : String × Player) : Prop :=
  e.2.id = e.1 ∧ 0 ≤ e.2.inventory.ammo

/-- Every entry of a players map satisfies `EntryOk`. -/
def PlayersOk (players : JsMap Player) : Prop :=
  ∀ e ∈ players, EntryOk e

/-- Every key of the bullets map is `'b' + n` for some `n` the counter has already passed. -/
def BulletKeysBounded (w : World) : Prop :=
  ∀ k ∈ JsMap.keys w.bullets, ∃ n : Nat, n ≤ w.bulletCounter ∧ k = "b" ++ toString n

/-- The seeded world of the examples: every pickup is placed at `(100, 100)`. -/
def seedWorld : World := initWorld (fun _ => (100, 100))

/-- The example world in which client `A` has connected and spawned at `(200, 200)`. -/
def worldA : World := run seriesMath seedWorld [Msg.connect "A" 200 200]

/-- The example world in which `A` has connected, has moved to `(100, 100)` and has shot from
there at angle `0`. -/
def worldShot : World :=
  run seriesMath seedWorld
    [Msg.connect "A" 200 200,
     Msg.playerInput "A" (some ⟨JsNum.num 100, JsNum.num 100, JsNum.num 0⟩),
     Msg.shoot "A" (some ⟨JsNum.num 100, JsNum.num 100, JsNum.num 0⟩)]

/-- The bullet of `worldShot`. -/
def shotBullet : Bullet :=
  { id := "b1", owner := "A", x := JsNum.num 100, y := JsNum.num 100,
    vx := JsNum.num 600, vy := JsNum.num 0, life := 2000 }

/-- A shoot payload: from `(200, 200)` at angle `0`. -/
def shotPayload : ShootData := ⟨JsNum.num 200, JsNum.num 200, JsNum.num 0⟩

/-- The example world in which `A` and `C` have both spawned at `(200, 200)`, `A` has shot twice
from there and one tick has passed: `C` has taken both bullets. -/
def worldHurt : World :=
  run seriesMath seedWorld
    [Msg.connect "A" 200 200, Msg.connect "C" 200 200,
     Msg.shoot "A" (some shotPayload), Msg.shoot "A" (some shotPayload), Msg.tick]

/-- The example world in which `A` has connected and taken pickup `p0`. -/
def worldTaken : World :=
  run seriesMath seedWorld [Msg.connect "A" 200 200, Msg.pickup "A" "p0"]

/-- The example world of the hit scenario: `A` at `(200, 200)`, `B` moved to `(120, 100)` with
full health, and `A`'s bullet fired from `(118, 100)` at angle `0`. -/
def worldDuel : World :=
  run seriesMath seedWorld
    [Msg.connect "A" 200 200, Msg.connect "B" 200 200,
     Msg.playerInput "B" (some ⟨JsNum.num 120, JsNum.num 100, JsNum.num 0⟩),
     Msg.shoot "A" (some ⟨JsNum.num 118, JsNum.num 100, JsNum.num 0⟩)]

/-- The bullet of `worldDuel`. -/
def duelBullet : Bullet :=
  { id := "b1", owner := "A", x := JsNum.num 118, y := JsNum.num 100,
    vx := JsNum.num 600, vy := JsNum.num 0, life := 2000 }

/-- The sum of the health of all players of a map. -/
def totalHp (players : JsMap Player) : Int :=
  (players.map (fun e => e.2.hp)).sum

/-- The two events a bullet can cause: `playerHit` and `playerDied`. -/
def isHitEvent : Event → Bool
  | Event.playerHit _ _ _ => true
  | Event.playerDied _ _ => true
  | _ => false

/-- The bullet of `worldShot` after `n` ticks in flight. -/
def agedBullet (n : Nat) : Bullet :=
  { shotBullet with x := JsNum.num (100 + 10 * n), life := 2000 - n * (50 / 3) }

/-- The example world `n` ticks after `A`'s shot: the bullet has moved `10 n` to the right and
has lost `n` times `50/3` of its life. -/
def worldAged (n : Nat) : World :=
  { worldShot with bullets := [("b1", agedBullet n)] }

/-- The example world in which `A`, `B` and `C` have all spawned at `(200, 200)` and `A` has shot
from there at angle `0`. -/
def worldThree : World :=
  run seriesMath seedWorld
    [Msg.connect "A" 200 200, Msg.connect "B" 200 200, Msg.connect "C" 200 200,
     Msg.shoot "A" (some shotPayload)]

/-- The bullet of `worldThree`. -/
def threeBullet : Bullet :=
  { id := "b1", owner := "A", x := JsNum.num 200, y := JsNum.num 200,
    vx := JsNum.num 600, vy := JsNum.num 0, life := 2000 }

/-! # Theorems -/

/-! ## Facts about maps -/

namespace JsMap

variable {α : Type}

theorem get_set_self (m : JsMap α) (k : String) (v : α) : get (set m k v) k = some v := by
  induction m with
  | nil => simp [set, get]
  | cons e m ih =>
    obtain ⟨k', v'⟩ := e
    by_cases h : k' = k <;> simp [set, get, h, ih]

theorem get_set_ne (m : JsMap α) {k k' : String} (v : α) (h : k ≠ k') :
    get (set m k v) k' = get m k' := by
  induction m with
  | nil => simp [set, get, h]
  | cons e m ih =>
    obtain ⟨k1, v1⟩ := e
    by_cases h1 : k1 = k
    · subst h1; simp [set, get, h]
    · simp [set, get, h1, ih]

theorem mem_of_get {m : JsMap α} {k : String} {v : α} (h : get m k = some v) : (k, v) ∈ m := by
  induction m with
  | nil => simp [get] at h
  | cons e m ih =>
    obtain ⟨k1, v1⟩ := e
    by_cases h1 : k1 = k
    · subst h1; simp [get] at h; simp [h]
    · simp [get, h1] at h; exact List.mem_cons_of_mem _ (ih h)

theorem mem_set {m : JsMap α} {k : String} {v : α} {e : String × α} (h : e ∈ set m k v) :
    e = (k, v) ∨ e ∈ m := by
  induction m with
  | nil => simpa [set] using h
  | cons e1 m ih =>
    obtain ⟨k1, v1⟩ := e1
    by_cases h1 : k1 = k
    · simp only [set, h1, if_true, List.mem_cons] at h
      rcases h with h | h
      · exact Or.inl h
      · exact Or.inr (List.mem_cons_of_mem _ h)
    · simp only [set, h1, if_false, List.mem_cons] at h
      rcases h with h | h
      · exact Or.inr (h ▸ List.mem_cons_self _ _)
      · rcases ih h with h2 | h2
        · exact Or.inl h2
        · exact Or.inr (List.mem_cons_of_mem _ h2)

theorem mem_del {m : JsMap α} {k : String} {e : String × α} (h : e ∈ del m k) : e ∈ m :=
  (List.mem_filter.1 h).1

theorem get_eq_none_iff (m : JsMap α) (k : String) : get m k = none ↔ k ∉ keys m := by
  induction m with
  | nil => simp [get, keys]
  | cons e m ih =>
    obtain ⟨k1, v1⟩ := e
    by_cases h1 : k1 = k
    · simp [get, keys, h1]
    · have h2 : ¬ k = k1 := fun h => h1 h.symm
      simpa [get, keys, h1, h2] using ih

theorem set_of_get_none {m : JsMap α} {k : String} (v : α) (h : get m k = none) :
    set m k v = m ++ [(k, v)] := by
  induction m with
  | nil => simp [set]
  | cons e m ih =>
    obtain ⟨k1, v1⟩ := e
    by_cases h1 : k1 = k
    · simp [get, h1] at h
    · simp [get, h1] at h
      simp [set, h1, ih h]

theorem keys_set (m : JsMap α) (k : String) (v : α) (k' : String) :
    k' ∈ keys (set m k v) ↔ k' = k ∨ k' ∈ keys m := by
  induction m with
  | nil => simp [set, keys]
  | cons e m ih =>
    obtain ⟨k1, v1⟩ := e
    by_cases h1 : k1 = k
    · subst h1; simp [set, keys]
    · simp only [keys] at ih
      simp [set, keys, h1, ih]
      tauto

end JsMap

/-! ## The health invariant -/

theorem healthOk_newPlayer (id : String) (x y : Int) : HealthOk (newPlayer id x y) := by
  simp [HealthOk, newPlayer]

theorem allHealthOk_set {players : JsMap Player} {k : String} {p : Player}
    (h : AllHealthOk players) (hp : HealthOk p) : AllHealthOk (JsMap.set players k p) := by
  intro e he
  rcases JsMap.mem_set he with h1 | h1
  · rw [h1]; exact hp
  · exact h e h1

theorem healthOk_applyHit (b : Bullet) {p : Player} (h : HealthOk p) :
    HealthOk (applyHit b p).1 := by
  obtain ⟨h0, h1, h2⟩ := h
  unfold applyHit
  split
  · simp [HealthOk]
  · rename_i hgt
    refine ⟨by simp; omega, by simp; omega, ?_⟩
    simp only
    constructor
    · intro ha; have := h2.1 ha; omega
    · intro hz; omega

theorem allHealthOk_hitScan (b : Bullet) :
    ∀ (players : JsMap Player) (r : JsMap Player × Event),
      AllHealthOk players → hitScan b players = some r → AllHealthOk r.1 := by
  intro players
  induction players with
  | nil => intro r _ h; simp [hitScan] at h
  | cons e rest ih =>
    obtain ⟨pid, p⟩ := e
    intro r hall h
    have hp : HealthOk p := hall (pid, p) (List.mem_cons_self _ _)
    have hrest : AllHealthOk rest := fun e he => hall e (List.mem_cons_of_mem _ he)
    unfold hitScan at h
    split at h
    · simp only [Option.some.injEq] at h
      subst h
      intro e he
      rcases List.mem_cons.1 he with h1 | h1
      · rw [h1]; exact healthOk_applyHit b hp
      · exact hrest e h1
    · cases hs : hitScan b rest with
      | none => simp [hs] at h
      | some r1 =>
        simp only [hs, Option.map_some', Option.some.injEq] at h
        subst h
        intro e he
        rcases List.mem_cons.1 he with h1 | h1
        · rw [h1]; exact hp
        · exact ih r1 hrest hs e h1

theorem allHealthOk_bulletStep {players : JsMap Player} (b : Bullet)
    (h : AllHealthOk players) : AllHealthOk (bulletStep players b).1 := by
  unfold bulletStep
  split
  · rename_i players1 ev hs
    exact allHealthOk_hitScan _ players (players1, ev) h hs
  · split <;> exact h

theorem allHealthOk_tickBullets (bullets : JsMap Bullet) :
    ∀ players : JsMap Player, AllHealthOk players → AllHealthOk (tickBullets players bullets).1 := by
  induction bullets with
  | nil => intro players h; exact h
  | cons e rest ih =>
    obtain ⟨id, b⟩ := e
    intro players h
    exact ih _ (allHealthOk_bulletStep b h)

theorem pickupsSeeded_set {pickups : JsMap Pickup} {k : String} {pk : Pickup}
    (h : PickupsSeeded pickups) (hpk : pk.type = "health" ∧ pk.amount = 25) :
    PickupsSeeded (JsMap.set pickups k pk) := by
  intro e he
  rcases JsMap.mem_set he with h1 | h1
  · rw [h1]; exact hpk
  · exact h e h1

theorem pickupsSeeded_seed (rnd : Nat → Int × Int) : PickupsSeeded (seedPickups rnd) := by
  unfold seedPickups
  have key : ∀ (l : List Nat) (m : JsMap Pickup), PickupsSeeded m →
      PickupsSeeded (l.foldl (fun m i => JsMap.set m ("p" ++ toString i)
        (createPickup ("p" ++ toString i) (rnd i).1 (rnd i).2)) m) := by
    intro l
    induction l with
    | nil => intro m hm; exact hm
    | cons i l ih =>
      intro m hm
      exact ih _ (pickupsSeeded_set hm ⟨rfl, rfl⟩)
  exact key _ _ (fun e he => by simp at he)

theorem pickupsSeeded_step (M : JsMath) {w : World} (m : Msg) (h : PickupsSeeded w.pickups) :
    PickupsSeeded (step M w m).world.pickups := by
  cases m with
  | connect id x y => exact h
  | disconnect id => exact h
  | playerInput id data =>
    simp only [step, onPlayerInput]
    split
    · exact h
    · split
      · exact h
      · split <;> exact h
  | shoot id payload =>
    simp only [step, onShoot]
    split
    · exact h
    · split
      · exact h
      · split
        · exact h
        · split <;> exact h
  | pickup id pickupId =>
    simp only [step, onPickup]
    split
    · rename_i p pick hg hk
      split
      · exact h
      · exact pickupsSeeded_set h (h _ (JsMap.mem_of_get hk))
    · exact h
  | useMedkit id =>
    simp only [step, onUseMedkit]
    split
    · exact h
    · split
      · exact h
      · split <;> exact h
  | tick => exact h

theorem pickupsSeeded_of_reachable (M : JsMath) {w : World} (h : Reachable M w) :
    PickupsSeeded w.pickups := by
  induction h with
  | start rnd => exact pickupsSeeded_seed rnd
  | next m _ ih => exact pickupsSeeded_step M m ih

theorem allHealthOk_step (M : JsMath) {w : World} (m : Msg) (h : AllHealthOk w.players)
    (hk : PickupsSeeded w.pickups) : AllHealthOk (step M w m).world.players := by
  cases m with
  | connect id x y => exact allHealthOk_set h (healthOk_newPlayer id x y)
  | disconnect id => exact fun e he => h e (JsMap.mem_del he)
  | playerInput id data =>
    simp only [step, onPlayerInput]
    cases hg : JsMap.get w.players id with
    | none => exact h
    | some p =>
      have hp : HealthOk p := h _ (JsMap.mem_of_get hg)
      simp only
      split
      · exact h
      · cases data with
        | none => exact h
        | some d => exact allHealthOk_set h hp
  | shoot id payload =>
    simp only [step, onShoot]
    cases hg : JsMap.get w.players id with
    | none => exact h
    | some p =>
      have hp : HealthOk p := h _ (JsMap.mem_of_get hg)
      simp only
      split
      · exact h
      · split
        · exact h
        · cases payload with
          | none => exact allHealthOk_set h hp
          | some pl => exact allHealthOk_set h hp
  | pickup id pickupId =>
    simp only [step, onPickup]
    cases hg : JsMap.get w.players id with
    | none => exact h
    | some p =>
      have hp : HealthOk p := h _ (JsMap.mem_of_get hg)
      cases hq : JsMap.get w.pickups pickupId with
      | none => exact h
      | some pick =>
        have hamt : pick.amount = 25 := (hk _ (JsMap.mem_of_get hq)).2
        simp only
        split
        · exact h
        · rename_i hc
          simp only [Bool.or_eq_true, Bool.not_eq_true', not_or, Bool.not_eq_true,
            Bool.not_eq_false] at hc
          refine allHealthOk_set h ?_
          obtain ⟨h0, h1, h2⟩ := hp
          have hne : p.hp ≠ 0 := fun hz => by
            have := h2.2 hz; rw [hc.2] at this; exact absurd this (by decide)
          refine ⟨?_, ?_, ?_⟩
          · simp only; split <;> omega
          · simp only; split <;> omega
          · simp only [hc.2]
            constructor
            · intro hx; exact absurd hx (by decide)
            · intro hz; exfalso; revert hz; split <;> omega
  | useMedkit id =>
    simp only [step, onUseMedkit]
    cases hg : JsMap.get w.players id with
    | none => exact h
    | some p =>
      have hp : HealthOk p := h _ (JsMap.mem_of_get hg)
      simp only
      split
      · exact h
      · rename_i hc
        simp only [Bool.not_eq_true', Bool.not_eq_false] at hc
        split
        · refine allHealthOk_set h ?_
          obtain ⟨h0, h1, h2⟩ := hp
          have hne : p.hp ≠ 0 := fun hz => by
            have := h2.2 hz; rw [hc] at this; exact absurd this (by decide)
          refine ⟨by simp only; omega, by simp only; omega, ?_⟩
          simp only [hc]
          constructor
          · intro hx; exact absurd hx (by decide)
          · intro hz; omega
        · exact h
  | tick => exact allHealthOk_tickBullets _ _ h

theorem allHealthOk_of_reachable (M : JsMath) {w : World} (h : Reachable M w) :
    AllHealthOk w.players := by
  induction h with
  | start rnd => intro e he; simp [initWorld] at he
  | next m hw ih => exact allHealthOk_step M m ih (pickupsSeeded_of_reachable M hw)

/-- C1: in every world reachable from server start, every player of the players map has
`0 ≤ hp ≤ 100`, and `alive` is false exactly when `hp` is `0`. -/
theorem health_invariant (M : JsMath) (w : World) (hw : Reachable M w) (id : String) (p : Player)
    (hp : JsMap.get w.players id = some p) :
    0 ≤ p.hp ∧ p.hp ≤ 100 ∧ (p.alive = false ↔ p.hp = 0) :=
  allHealthOk_of_reachable M hw _ (JsMap.mem_of_get hp)

/-! ## Bullet ids -/

theorem digitChar_value (k : Nat) (h : k < 10) : (Nat.digitChar k).toNat - 48 = k := by
  interval_cases k <;> rfl

theorem toDigitsCore_value : ∀ (fuel n : Nat) (ds : List Char), n < fuel →
    ∃ pre, Nat.toDigitsCore 10 fuel n ds = pre ++ ds ∧ digitsValue pre = n := by
  intro fuel
  induction fuel with
  | zero => intro n ds h; omega
  | succ fuel ih =>
    intro n ds h
    unfold Nat.toDigitsCore
    by_cases h0 : n / 10 = 0
    · refine ⟨[Nat.digitChar (n % 10)], by simp [h0], ?_⟩
      have hn : n % 10 = n := by omega
      have hd := digitChar_value (n % 10) (Nat.mod_lt _ (by decide))
      simp only [digitsValue, List.foldl_cons, List.foldl_nil, Nat.zero_mul, Nat.zero_add]
      omega
    · obtain ⟨pre, hpre, hval⟩ := ih (n / 10) (Nat.digitChar (n % 10) :: ds) (by omega)
      refine ⟨pre ++ [Nat.digitChar (n % 10)], by simp [h0, hpre], ?_⟩
      unfold digitsValue at hval ⊢
      rw [List.foldl_append, hval]
      simp [digitChar_value (n % 10) (Nat.mod_lt _ (by decide))]
      omega

theorem toString_nat_injective {a b : Nat} (h : toString a = toString b) : a = b := by
  have h1 : Nat.toDigits 10 a = Nat.toDigits 10 b := by
    have := congrArg String.data h
    simpa [toString, Nat.repr, List.asString] using this
  obtain ⟨pa, hpa, hva⟩ := toDigitsCore_value (a + 1) a [] (by omega)
  obtain ⟨pb, hpb, hvb⟩ := toDigitsCore_value (b + 1) b [] (by omega)
  unfold Nat.toDigits at h1
  rw [hpa, hpb] at h1
  simp at h1
  rw [← hva, ← hvb, h1]

theorem bulletId_injective {a b : Nat} (h : "b" ++ toString a = "b" ++ toString b) : a = b := by
  apply toString_nat_injective
  have := congrArg String.data h
  simp only [String.data_append, List.append_cancel_left_eq] at this
  exact String.ext this

/-! ## How the tick changes the players -/

theorem hitScan_mem (b : Bullet) :
    ∀ (players : JsMap Player) (r : JsMap Player × Event), hitScan b players = some r →
      ∀ e ∈ r.1, e ∈ players ∨ ∃ p, (e.1, p) ∈ players ∧ e.2 = (applyHit b p).1 := by
  intro players
  induction players with
  | nil => intro r h; simp [hitScan] at h
  | cons e0 rest ih =>
    obtain ⟨pid, p⟩ := e0
    intro r h e he
    unfold hitScan at h
    split at h
    · simp only [Option.some.injEq] at h
      subst h
      rcases List.mem_cons.1 he with h1 | h1
      · exact Or.inr ⟨p, by rw [h1]; exact List.mem_cons_self _ _, by rw [h1]⟩
      · exact Or.inl (List.mem_cons_of_mem _ h1)
    · cases hs : hitScan b rest with
      | none => simp [hs] at h
      | some r1 =>
        simp only [hs, Option.map_some', Option.some.injEq] at h
        subst h
        rcases List.mem_cons.1 he with h1 | h1
        · exact Or.inl (h1 ▸ List.mem_cons_self _ _)
        · rcases ih r1 hs e h1 with h2 | ⟨q, hq, hq2⟩
          · exact Or.inl (List.mem_cons_of_mem _ h2)
          · exact Or.inr ⟨q, List.mem_cons_of_mem _ hq, hq2⟩

theorem bulletStep_forall (Q : String × Player → Prop)
    (hQ : ∀ (b : Bullet) (k : String) (p : Player), Q (k, p) → Q (k, (applyHit b p).1))
    {players : JsMap Player} (b : Bullet) (h : ∀ e ∈ players, Q e) :
    ∀ e ∈ (bulletStep players b).1, Q e := by
  unfold bulletStep
  split
  · rename_i players1 ev hs
    intro e he
    rcases hitScan_mem _ players (players1, ev) hs e he with h1 | ⟨p, hp, hp2⟩
    · exact h e h1
    · have := hQ (moveBullet b) e.1 p (h _ hp)
      rw [← hp2] at this
      exact this
  · split <;> exact h

theorem tickBullets_forall (Q : String × Player → Prop)
    (hQ : ∀ (b : Bullet) (k : String) (p : Player), Q (k, p) → Q (k, (applyHit b p).1))
    (bullets : JsMap Bullet) :
    ∀ players : JsMap Player, (∀ e ∈ players, Q e) → ∀ e ∈ (tickBullets players bullets).1, Q e := by
  induction bullets with
  | nil => intro players h; exact h
  | cons e rest ih =>
    obtain ⟨id, b⟩ := e
    intro players h
    exact ih _ (bulletStep_forall Q hQ b h)

theorem entryOk_applyHit (b : Bullet) (k : String) (p : Player) (h : EntryOk (k, p)) :
    EntryOk (k, (applyHit b p).1) := by
  unfold applyHit
  split <;> exact h

theorem playersOk_set {players : JsMap Player} {k : String} {p : Player}
    (h : PlayersOk players) (hp : EntryOk (k, p)) : PlayersOk (JsMap.set players k p) := by
  intro e he
  rcases JsMap.mem_set he with h1 | h1
  · rw [h1]; exact hp
  · exact h e h1

theorem playersOk_step (M : JsMath) {w : World} (m : Msg) (h : PlayersOk w.players) :
    PlayersOk (step M w m).world.players := by
  cases m with
  | connect id x y => exact playersOk_set h ⟨rfl, by simp [newPlayer]⟩
  | disconnect id => exact fun e he => h e (JsMap.mem_del he)
  | playerInput id data =>
    simp only [step, onPlayerInput]
    cases hg : JsMap.get w.players id with
    | none => exact h
    | some p =>
      have hp : EntryOk (id, p) := h _ (JsMap.mem_of_get hg)
      simp only
      split
      · exact h
      · cases data with
        | none => exact h
        | some d => exact playersOk_set h hp
  | shoot id payload =>
    simp only [step, onShoot]
    cases hg : JsMap.get w.players id with
    | none => exact h
    | some p =>
      have hp : EntryOk (id, p) := h _ (JsMap.mem_of_get hg)
      simp only
      split
      · exact h
      · split
        · exact h
        · rename_i hc
          have hp1 : EntryOk (id, { p with inventory := { p.inventory with ammo := p.inventory.ammo - 1 } }) :=
            ⟨hp.1, by simp only; omega⟩
          cases payload with
          | none => exact playersOk_set h hp1
          | some pl => exact playersOk_set h hp1
  | pickup id pickupId =>
    simp only [step, onPickup]
    cases hg : JsMap.get w.players id with
    | none => exact h
    | some p =>
      have hp : EntryOk (id, p) := h _ (JsMap.mem_of_get hg)
      cases hq : JsMap.get w.pickups pickupId with
      | none => exact h
      | some pick =>
        simp only
        split
        · exact h
        · exact playersOk_set h hp
  | useMedkit id =>
    simp only [step, onUseMedkit]
    cases hg : JsMap.get w.players id with
    | none => exact h
    | some p =>
      have hp : EntryOk (id, p) := h _ (JsMap.mem_of_get hg)
      simp only
      split
      · exact h
      · split
        · exact playersOk_set h hp
        · exact h
  | tick => exact tickBullets_forall EntryOk entryOk_applyHit _ _ h

theorem playersOk_of_reachable (M : JsMath) {w : World} (h : Reachable M w) :
    PlayersOk w.players := by
  induction h with
  | start rnd => intro e he; simp [initWorld] at he
  | next m _ ih => exact playersOk_step M m ih

/-! ## How the tick changes the bullets -/

theorem tickBullets_mem (bullets : JsMap Bullet) :
    ∀ (players : JsMap Player), ∀ e ∈ (tickBullets players bullets).2.1,
      ∃ b, (e.1, b) ∈ bullets ∧ e.2 = moveBullet b ∧ 0 < (moveBullet b).life := by
  induction bullets with
  | nil => intro players e he; simp [tickBullets] at he
  | cons e0 rest ih =>
    obtain ⟨id, b⟩ := e0
    intro players e he
    have hrest : ∀ e ∈ (tickBullets (bulletStep players b).1 rest).2.1,
        ∃ b1, (e.1, b1) ∈ (id, b) :: rest ∧ e.2 = moveBullet b1 ∧ 0 < (moveBullet b1).life := by
      intro e he
      obtain ⟨b1, h1, h2⟩ := ih _ e he
      exact ⟨b1, List.mem_cons_of_mem _ h1, h2⟩
    simp only [tickBullets] at he
    cases hb : (bulletStep players b).2.1 with
    | none => rw [hb] at he; exact hrest e he
    | some b1 =>
      rw [hb] at he
      rcases List.mem_cons.1 he with h1 | h1
      · have hb1 : b1 = moveBullet b ∧ 0 < (moveBullet b).life := by
          unfold bulletStep at hb
          split at hb
          · simp at hb
          · split at hb
            · simp at hb
            · rename_i hlife
              simp only [Option.some.injEq] at hb
              exact ⟨hb.symm, not_le.1 hlife⟩
        exact ⟨b, by rw [h1]; exact List.mem_cons_self _ _, by rw [h1]; exact hb1.1, hb1.2⟩
      · exact hrest e h1

theorem tickBullets_keys {players : JsMap Player} {bullets : JsMap Bullet} {k : String}
    (h : k ∈ JsMap.keys (tickBullets players bullets).2.1) : k ∈ JsMap.keys bullets := by
  simp only [JsMap.keys, List.mem_map] at h ⊢
  obtain ⟨e, he, hk⟩ := h
  obtain ⟨b, hb, _⟩ := tickBullets_mem bullets players e he
  exact ⟨(e.1, b), hb, hk⟩

theorem bulletKeysBounded_step (M : JsMath) {w : World} (m : Msg) (h : BulletKeysBounded w) :
    BulletKeysBounded (step M w m).world := by
  cases m with
  | connect id x y => exact h
  | disconnect id => exact h
  | playerInput id data =>
    simp only [step, onPlayerInput]
    split
    · exact h
    · split
      · exact h
      · split <;> exact h
  | shoot id payload =>
    simp only [step, onShoot]
    split
    · exact h
    · split
      · exact h
      · split
        · exact h
        · have hmono : ∀ k ∈ JsMap.keys w.bullets,
              ∃ n : Nat, n ≤ w.bulletCounter + 1 ∧ k = "b" ++ toString n := by
            intro k hk
            obtain ⟨n, hn, hk2⟩ := h k hk
            exact ⟨n, by omega, hk2⟩
          split
          · exact hmono
          · intro k hk
            rcases (JsMap.keys_set _ _ _ _).1 hk with h1 | h1
            · exact ⟨w.bulletCounter + 1, le_refl _, h1⟩
            · exact hmono k h1
  | pickup id pickupId =>
    simp only [step, onPickup]
    split
    · split <;> exact h
    · exact h
  | useMedkit id =>
    simp only [step, onUseMedkit]
    split
    · exact h
    · split
      · exact h
      · split <;> exact h
  | tick => exact fun k hk => h k (tickBullets_keys hk)

theorem bulletKeysBounded_of_reachable (M : JsMath) {w : World} (h : Reachable M w) :
    BulletKeysBounded w := by
  induction h with
  | start rnd => intro k hk; simp [initWorld, JsMap.keys] at hk
  | next m _ ih => exact bulletKeysBounded_step M m ih

theorem fresh_bullet_key {w : World} (h : BulletKeysBounded w) :
    JsMap.get w.bullets ("b" ++ toString (w.bulletCounter + 1)) = none := by
  rw [JsMap.get_eq_none_iff]
  intro hk
  obtain ⟨n, hn, hk2⟩ := h _ hk
  have := bulletId_injective hk2
  omega

/-! ## Malformed payloads -/

theorem reachable_run (M : JsMath) (ms : List Msg) :
    ∀ {w : World}, Reachable M w → Reachable M (run M w ms) := by
  induction ms with
  | nil => intro w h; exact h
  | cons m ms ih => intro w h; exact ih (Reachable.next m h)

theorem reachable_worldA : Reachable seriesMath worldA :=
  reachable_run seriesMath _ (Reachable.start _)

theorem get_worldA : JsMap.get worldA.players "A" = some (newPlayer "A" 200 200) := by
  simp [worldA, run, step, onConnection, seedWorld, initWorld, JsMap.set, JsMap.get]

/-- C2, as stated, fails: with client `A` freshly connected (alive, ammo 30), a `shoot` without
payload raises and leaves `A` with ammo 29 and the bullet counter at 1; a `playerInput`
without payload raises; a `playerInput` whose payload lacks `x` overwrites `A`'s `x` with
`undefined`. -/
theorem malformed_payload_not_dropped :
    (JsMap.get worldA.players "A").map (fun p => (p.alive, p.inventory.ammo, p.x))
        = some (true, 30, JsNum.num 200) ∧
      worldA.bulletCounter = 0 ∧
      (onShoot seriesMath worldA "A" none).threw = true ∧
      (JsMap.get (onShoot seriesMath worldA "A" none).world.players "A").map
        (fun p => p.inventory.ammo) = some 29 ∧
      (onShoot seriesMath worldA "A" none).world.bulletCounter = 1 ∧
      (onPlayerInput worldA "A" none).threw = true ∧
      (JsMap.get (onPlayerInput worldA "A"
          (some ⟨JsNum.undef, JsNum.num 5, JsNum.num 0⟩)).world.players "A").map
        (fun p => p.x) = some JsNum.undef := by
  simp [onShoot, onPlayerInput, get_worldA, newPlayer, JsMap.get_set_self]
  simp [worldA, run, step, onConnection, seedWorld, initWorld, Outcome.quiet, JsMap.set, JsMap.get]

/-- C2 (amended): payloads are not validated.  For a sender whose player exists and is alive:
a `playerInput` without payload raises, leaving the world as it was and emitting nothing; a
`playerInput` with a payload completes without raising, emits nothing and stores the payload's
`x`, `y`, `dir` (`undefined` where the field is missing) in the sender's record, all else
unchanged; a `shoot` without payload is dropped when the sender has no ammunition, raises when
it has some, and in either case emits nothing, leaves bullets and pickups as they were,
leaves every player's position, facing, health, alive flag and medkits as they were and leaves
every other player's record untouched. -/
theorem malformed_payload_behaviour (M : JsMath) (w : World) (id : String) (p : Player)
    (hp : JsMap.get w.players id = some p) (ha : p.alive = true) :
    onPlayerInput w id none = ⟨w, [], true⟩ ∧
    (∀ d : InputData, onPlayerInput w id (some d) =
      ⟨{ w with players := JsMap.set w.players id { p with x := d.x, y := d.y, dir := d.dir } },
        [], false⟩) ∧
    (p.inventory.ammo ≤ 0 → onShoot M w id none = ⟨w, [], false⟩) ∧
    (0 < p.inventory.ammo → (onShoot M w id none).threw = true) ∧
    (onShoot M w id none).events = [] ∧
    (onShoot M w id none).world.bullets = w.bullets ∧
    (onShoot M w id none).world.pickups = w.pickups ∧
    (∀ (id' : String) (q : Player), JsMap.get w.players id' = some q →
      ∃ q', JsMap.get (onShoot M w id none).world.players id' = some q' ∧
        q'.x = q.x ∧ q'.y = q.y ∧ q'.dir = q.dir ∧ q'.hp = q.hp ∧ q'.alive = q.alive ∧
        q'.inventory.medkit = q.inventory.medkit ∧ (id' ≠ id → q' = q)) := by
  refine ⟨?_, ?_, ?_, ?_, ?_, ?_, ?_, ?_⟩
  · simp [onPlayerInput, hp, ha]
  · intro d; simp [onPlayerInput, hp, ha, Outcome.quiet]
  · intro h0; simp [onShoot, hp, ha, h0, Outcome.quiet]
  · intro h0; simp [onShoot, hp, ha, not_le.2 h0]
  · simp only [onShoot, hp, ha]
    by_cases h0 : p.inventory.ammo ≤ 0 <;> simp [h0, Outcome.quiet]
  · simp only [onShoot, hp, ha]
    by_cases h0 : p.inventory.ammo ≤ 0 <;> simp [h0, Outcome.quiet]
  · simp only [onShoot, hp, ha]
    by_cases h0 : p.inventory.ammo ≤ 0 <;> simp [h0, Outcome.quiet]
  · intro id' q hq
    simp only [onShoot, hp, ha]
    by_cases h0 : p.inventory.ammo ≤ 0
    · simp [h0, Outcome.quiet, hq]
    · simp only [h0, Bool.not_true, Bool.false_eq_true, if_false]
      by_cases hk : id = id'
      · subst hk
        rw [hp] at hq
        simp only [Option.some.injEq] at hq
        subst hq
        exact ⟨_, JsMap.get_set_self _ _ _, rfl, rfl, rfl, rfl, ha.symm, rfl,
          fun h => absurd rfl h⟩
      · rw [JsMap.get_set_ne _ _ hk]
        exact ⟨q, hq, rfl, rfl, rfl, rfl, rfl, rfl, fun _ => rfl⟩

theorem malformed_payload_behaviour_witness :
    JsMap.get worldA.players "A" = some (newPlayer "A" 200 200) ∧
    onPlayerInput worldA "A" none = ⟨worldA, [], true⟩ ∧
    (onShoot seriesMath worldA "A" none).threw = true ∧
    (onShoot seriesMath worldA "A" none).events = [] :=
  have h := malformed_payload_behaviour seriesMath worldA "A" (newPlayer "A" 200 200)
    get_worldA rfl
  ⟨get_worldA, h.1, h.2.2.2.1 (by decide), h.2.2.2.2.1⟩

/-! ## Integration step of the tick -/

theorem bullets_worldShot :
    worldShot.bullets = [("b1", shotBullet)] ∧
    worldShot.players = [("A", { newPlayer "A" 100 100 with inventory := { medkit := 0, ammo := 29 } })] := by
  simp [worldShot, run, step, onConnection, onShoot, seedWorld, initWorld, JsMap.set, JsMap.get,
    newPlayer, seriesMath, JsNum.mul, shotBullet]
  rfl

/-- C3 at a concrete input: one bullet at `(100, 100)` with velocity `(600, 0)` and life `2000`,
owned by the only player.  One tick, although scheduled every 50 ms, moves it to `x = 110`
(not `100 + 600 * 0.05 = 130`) and leaves life `2000 - 50/3` (not `1950`). -/
theorem tick_integrates_by_one_sixtieth :
    (tick worldShot).world.bullets =
      [("b1", { shotBullet with x := JsNum.num 110, life := 5950 / 3 })] ∧
    JsNum.add (JsNum.num 100) (JsNum.mul (JsNum.num 600) (JsNum.num (5 / 100))) = JsNum.num 130 ∧
    (2000 : ℚ) - 50 = 1950 := by
  refine ⟨?_, ?_, by norm_num⟩
  · unfold tick
    rw [bullets_worldShot.1, bullets_worldShot.2]
    simp [tickBullets, bulletStep, hitScan, isTarget, moveBullet, JsNum.add, JsNum.mul,
      shotBullet, newPlayer]
    norm_num
  · simp [JsNum.add, JsNum.mul]; norm_num

/-! ## The shoot handler -/

/-- C4: the shoot handler on a reachable world and a payload `{x, y, angle}`.  Without a player,
with a dead player or with ammo `0` nothing changes and nothing is emitted; ammo is never
negative.  Otherwise the sender's ammo drops by one, the key `'b' + (bulletCounter + 1)` is not
yet in the bullets map, the world afterwards is the old one with that bullet (owner the sender,
position `(x, y)`, velocity `(cos angle * 600, sin angle * 600)`, life `2000`) added last, the
counter advanced and nothing else touched, and the single event is `bulletSpawn` with that
bullet.  With ammo `30`, angle `0` (where `cos` is `1` and `sin` is `0`) and origin
`(100, 100)` the velocity is `(600, 0)` and ammo becomes `29`. -/
theorem shoot_spec (M : JsMath) (w : World) (hw : Reachable M w) (id : String) (pl : ShootData) :
    (JsMap.get w.players id = none → onShoot M w id (some pl) = ⟨w, [], false⟩) ∧
    (∀ q, JsMap.get (onShoot M w id (some pl)).world.players id = some q →
      0 ≤ q.inventory.ammo) ∧
    (∀ p, JsMap.get w.players id = some p →
      0 ≤ p.inventory.ammo ∧
      (p.alive = false ∨ p.inventory.ammo = 0 → onShoot M w id (some pl) = ⟨w, [], false⟩) ∧
      (p.alive = true → p.inventory.ammo ≠ 0 →
        ∃ b : Bullet,
          b.id = "b" ++ toString (w.bulletCounter + 1) ∧ b.owner = id ∧
          b.x = pl.x ∧ b.y = pl.y ∧
          b.vx = JsNum.mul (M.cos pl.angle) (JsNum.num 600) ∧
          b.vy = JsNum.mul (M.sin pl.angle) (JsNum.num 600) ∧
          b.life = 2000 ∧
          JsMap.get w.bullets b.id = none ∧
          (onShoot M w id (some pl)).events = [Event.bulletSpawn b] ∧
          (onShoot M w id (some pl)).threw = false ∧
          (onShoot M w id (some pl)).world.bullets = w.bullets ++ [(b.id, b)] ∧
          (onShoot M w id (some pl)).world.pickups = w.pickups ∧
          (onShoot M w id (some pl)).world.bulletCounter = w.bulletCounter + 1 ∧
          (onShoot M w id (some pl)).world.players = JsMap.set w.players id
            { p with inventory := { p.inventory with ammo := p.inventory.ammo - 1 } } ∧
          (∀ id', id' ≠ id → JsMap.get (onShoot M w id (some pl)).world.players id'
            = JsMap.get w.players id') ∧
          ((JsMap.get (onShoot M w id (some pl)).world.players id).map
            (fun q => (q.inventory.ammo, q.inventory.medkit, q.hp, q.alive, q.x, q.y, q.dir))
            = some (p.inventory.ammo - 1, p.inventory.medkit, p.hp, p.alive, p.x, p.y, p.dir)) ∧
          (M.cos (JsNum.num 0) = JsNum.num 1 → M.sin (JsNum.num 0) = JsNum.num 0 →
            p.inventory.ammo = 30 → pl = ⟨JsNum.num 100, JsNum.num 100, JsNum.num 0⟩ →
            b.x = JsNum.num 100 ∧ b.y = JsNum.num 100 ∧ b.vx = JsNum.num 600 ∧
            b.vy = JsNum.num 0 ∧
            (JsMap.get (onShoot M w id (some pl)).world.players id).map
              (fun q => q.inventory.ammo) = some 29))) := by
  have hok := playersOk_of_reachable M hw
  have hfresh := fresh_bullet_key (bulletKeysBounded_of_reachable M hw)
  refine ⟨?_, ?_, ?_⟩
  · intro h; simp [onShoot, h, Outcome.quiet]
  · intro q hq
    have h1 := playersOk_of_reachable M (Reachable.next (Msg.shoot id (some pl)) hw)
    exact (h1 _ (JsMap.mem_of_get hq)).2
  · intro p hp
    have hp0 : 0 ≤ p.inventory.ammo := (hok _ (JsMap.mem_of_get hp)).2
    refine ⟨hp0, ?_, ?_⟩
    · rintro (h | h)
      · simp [onShoot, hp, h, Outcome.quiet]
      · simp [onShoot, hp, h, Outcome.quiet]
    · intro ha hne
      have hpos : ¬ p.inventory.ammo ≤ 0 := by omega
      refine ⟨{ id := "b" ++ toString (w.bulletCounter + 1), owner := id, x := pl.x, y := pl.y,
                vx := JsNum.mul (M.cos pl.angle) (JsNum.num 600),
                vy := JsNum.mul (M.sin pl.angle) (JsNum.num 600), life := 2000 },
        rfl, rfl, rfl, rfl, rfl, rfl, rfl, hfresh, ?_, ?_, ?_, ?_, ?_, ?_, ?_, ?_, ?_⟩
      · simp [onShoot, hp, ha, hpos]
      · simp [onShoot, hp, ha, hpos]
      · simp [onShoot, hp, ha, hpos, JsMap.set_of_get_none _ hfresh]
      · simp [onShoot, hp, ha, hpos]
      · simp [onShoot, hp, ha, hpos]
      · simp [onShoot, hp, ha, hpos]
      · intro id' hne'
        simp only [onShoot, hp, ha, hpos, Bool.not_true, Bool.false_eq_true, if_false]
        exact JsMap.get_set_ne _ _ (fun h => hne' h.symm)
      · simp [onShoot, hp, ha, hpos, JsMap.get_set_self]
      · intro hc hs h30 hpl
        subst hpl
        simp [onShoot, hp, ha, hpos, JsMap.get_set_self, hc, hs, JsNum.mul, h30]

theorem shoot_spec_witness :
    Reachable seriesMath worldA ∧
    JsMap.get worldA.players "A" = some (newPlayer "A" 200 200) ∧
    ∃ b : Bullet, b.vx = JsNum.num 600 ∧ b.vy = JsNum.num 0 ∧
      (onShoot seriesMath worldA "A"
        (some ⟨JsNum.num 100, JsNum.num 100, JsNum.num 0⟩)).events = [Event.bulletSpawn b] ∧
      (JsMap.get (onShoot seriesMath worldA "A"
        (some ⟨JsNum.num 100, JsNum.num 100, JsNum.num 0⟩)).world.players "A").map
          (fun q => q.inventory.ammo) = some 29 := by
  obtain ⟨b, h⟩ := ((shoot_spec seriesMath worldA reachable_worldA "A"
    ⟨JsNum.num 100, JsNum.num 100, JsNum.num 0⟩).2.2 (newPlayer "A" 200 200) get_worldA).2.2
      rfl (by decide)
  have hp := h.2.2.2.2.2.2.2.2.2.2.2.2.2.2.2.2 (by simp [seriesMath]) (by simp [seriesMath])
    rfl rfl
  exact ⟨reachable_worldA, get_worldA, b, hp.2.2.1, hp.2.2.2.1, h.2.2.2.2.2.2.2.2.1, hp.2.2.2.2⟩

/-! ## Pickups -/

theorem get_seedPickups_p0 :
    JsMap.get seedWorld.pickups "p0" = some (createPickup "p0" 100 100) := by
  decide

theorem players_worldHurt :
    worldHurt.players =
      [("A", { newPlayer "A" 200 200 with inventory := { medkit := 0, ammo := 28 } }),
       ("C", { newPlayer "C" 200 200 with hp := 60 })] ∧
    worldHurt.pickups = seedWorld.pickups := by
  simp [worldHurt, run, step, onConnection, onShoot, seedWorld, initWorld, JsMap.set, JsMap.get,
    newPlayer, seriesMath, JsNum.mul, shotPayload]
  simp [tick, tickBullets, bulletStep, hitScan,
    isTarget, moveBullet, JsNum.add, JsNum.sub, JsNum.lt, dist2, applyHit, JsNum.mul]
  norm_num
  simp [hitScan, isTarget, JsNum.add, JsNum.sub, JsNum.lt, dist2, applyHit, JsNum.mul]
  norm_num

theorem reachable_worldHurt : Reachable seriesMath worldHurt :=
  reachable_run seriesMath _ (Reachable.start _)

theorem get_worldHurt :
    JsMap.get worldHurt.players "C" = some { newPlayer "C" 200 200 with hp := 60 } ∧
    JsMap.get worldHurt.pickups "p0" = some (createPickup "p0" 100 100) := by
  rw [players_worldHurt.1, players_worldHurt.2]
  exact ⟨by simp [JsMap.get], get_seedPickups_p0⟩

/-- C5: on a reachable world, a pickup request for an existing, not yet taken pickup by an
existing, alive player marks that pickup taken, sets the player's hp to `min 100 (hp + 25)`,
adds one medkit, leaves ammo, position, every other player, every other pickup, the bullets and
the bullet counter as they were, and emits exactly one `pickupTaken` carrying the pickup id, the
taker id and the taker's `{id, hp, inventory}`.  With hp `60` and no medkit the result is hp
`85` and one medkit. -/
theorem pickup_spec (M : JsMath) (w : World) (hw : Reachable M w) (id k : String)
    (p : Player) (pick : Pickup)
    (hp : JsMap.get w.players id = some p) (ha : p.alive = true)
    (hk : JsMap.get w.pickups k = some pick) (ht : pick.taken = false) :
    (onPickup w id k).threw = false ∧
    (onPickup w id k).events =
      [Event.pickupTaken k id id (min 100 (p.hp + 25))
        { medkit := p.inventory.medkit + 1, ammo := p.inventory.ammo }] ∧
    (onPickup w id k).world.pickups = JsMap.set w.pickups k { pick with taken := true } ∧
    JsMap.get (onPickup w id k).world.pickups k = some { pick with taken := true } ∧
    (∀ k', k' ≠ k → JsMap.get (onPickup w id k).world.pickups k' = JsMap.get w.pickups k') ∧
    (onPickup w id k).world.players = JsMap.set w.players id
      { p with hp := min 100 (p.hp + 25),
               inventory := { medkit := p.inventory.medkit + 1, ammo := p.inventory.ammo } } ∧
    JsMap.get (onPickup w id k).world.players id = some
      { p with hp := min 100 (p.hp + 25),
               inventory := { medkit := p.inventory.medkit + 1, ammo := p.inventory.ammo } } ∧
    (∀ id', id' ≠ id → JsMap.get (onPickup w id k).world.players id' = JsMap.get w.players id') ∧
    (onPickup w id k).world.bullets = w.bullets ∧
    (onPickup w id k).world.bulletCounter = w.bulletCounter ∧
    (p.hp = 60 → p.inventory.medkit = 0 →
      (JsMap.get (onPickup w id k).world.players id).map (fun q => (q.hp, q.inventory.medkit))
        = some (85, 1)) := by
  obtain ⟨hty, hamt⟩ := pickupsSeeded_of_reachable M hw _ (JsMap.mem_of_get hk)
  simp only at hty hamt
  have hout : onPickup w id k =
      ⟨{ w with
          players := JsMap.set w.players id
            { p with hp := min 100 (p.hp + 25),
                     inventory := { medkit := p.inventory.medkit + 1, ammo := p.inventory.ammo } },
          pickups := JsMap.set w.pickups k { pick with taken := true } },
        [Event.pickupTaken k id id (min 100 (p.hp + 25))
          { medkit := p.inventory.medkit + 1, ammo := p.inventory.ammo }], false⟩ := by
    simp [onPickup, hp, hk, ha, ht, hty, hamt]
  rw [hout]
  refine ⟨rfl, rfl, rfl, JsMap.get_set_self _ _ _, ?_, rfl, JsMap.get_set_self _ _ _, ?_, rfl, rfl, ?_⟩
  · intro k' hne; exact JsMap.get_set_ne _ _ (fun h => hne h.symm)
  · intro id' hne; exact JsMap.get_set_ne _ _ (fun h => hne h.symm)
  · intro h60 hm
    simp [JsMap.get_set_self, h60, hm]

theorem pickup_spec_witness :
    Reachable seriesMath worldHurt ∧
    (onPickup worldHurt "C" "p0").events =
      [Event.pickupTaken "p0" "C" "C" 85 { medkit := 1, ammo := 30 }] ∧
    (JsMap.get (onPickup worldHurt "C" "p0").world.players "C").map
      (fun q => (q.hp, q.inventory.medkit)) = some (85, 1) ∧
    (JsMap.get (onPickup worldHurt "C" "p0").world.pickups "p0").map (fun q => q.taken)
      = some true := by
  have h := pickup_spec seriesMath worldHurt reachable_worldHurt "C" "p0" _ _
    get_worldHurt.1 rfl get_worldHurt.2 rfl
  refine ⟨reachable_worldHurt, ?_, h.2.2.2.2.2.2.2.2.2.2 rfl rfl, ?_⟩
  · rw [h.2.1]; rfl
  · rw [h.2.2.2.1]; rfl

/-! ## A taken pickup stays taken -/

theorem step_keeps_taken (M : JsMath) (w : World) (k : String) (pick : Pickup)
    (hk : JsMap.get w.pickups k = some pick) (ht : pick.taken = true) (m : Msg) :
    JsMap.get (step M w m).world.pickups k = some pick := by
  cases m with
  | connect id x y => exact hk
  | disconnect id => exact hk
  | playerInput id data =>
    simp only [step, onPlayerInput]
    split
    · exact hk
    · split
      · exact hk
      · split <;> exact hk
  | shoot id payload =>
    simp only [step, onShoot]
    split
    · exact hk
    · split
      · exact hk
      · split
        · exact hk
        · split <;> exact hk
  | pickup id pickupId =>
    simp only [step, onPickup]
    split
    · rename_i p pick1 hg hq
      split
      · exact hk
      · rename_i hc
        have hne : pickupId ≠ k := by
          intro h
          subst h
          rw [hk] at hq
          simp only [Option.some.injEq] at hq
          subst hq
          simp [ht] at hc
        simp only [Outcome.quiet]
        rw [JsMap.get_set_ne _ _ hne]
        exact hk
    · exact hk
  | useMedkit id =>
    simp only [step, onUseMedkit]
    split
    · exact hk
    · split
      · exact hk
      · split <;> exact hk
  | tick => exact hk

/-- C6: once pickup `k` is in the pickups map with `taken = true`, it is still there, taken and
otherwise untouched, after any message or tick and after any sequence of them; and a pickup
request for `k` from any sender leaves the whole world as it was, emits nothing and does not
raise. -/
theorem taken_stays_taken (M : JsMath) (w : World) (k : String) (pick : Pickup)
    (hk : JsMap.get w.pickups k = some pick) (ht : pick.taken = true) :
    (∀ m : Msg, JsMap.get (step M w m).world.pickups k = some pick) ∧
    (∀ ms : List Msg, JsMap.get (run M w ms).pickups k = some pick) ∧
    (∀ id : String, onPickup w id k = ⟨w, [], false⟩) := by
  refine ⟨step_keeps_taken M w k pick hk ht, ?_, ?_⟩
  · intro ms
    induction ms generalizing w with
    | nil => exact hk
    | cons m ms ih => exact ih _ (step_keeps_taken M w k pick hk ht m)
  · intro id
    unfold onPickup
    cases hg : JsMap.get w.players id with
    | none => simp [Outcome.quiet]
    | some p => simp [hk, ht, Outcome.quiet]

theorem get_worldTaken :
    JsMap.get worldTaken.pickups "p0" = some { createPickup "p0" 100 100 with taken := true } := by
  have h : worldTaken = (onPickup worldA "A" "p0").world := rfl
  have hp0 : JsMap.get worldA.pickups "p0" = some (createPickup "p0" 100 100) :=
    get_seedPickups_p0
  rw [h]
  simp [onPickup, get_worldA, hp0, newPlayer, createPickup, JsMap.get_set_self]

theorem taken_stays_taken_witness :
    Reachable seriesMath worldTaken ∧
    (JsMap.get worldTaken.pickups "p0").map (fun q => q.taken) = some true ∧
    (JsMap.get (run seriesMath worldTaken
      [Msg.pickup "A" "p0", Msg.tick, Msg.disconnect "A"]).pickups "p0").map (fun q => q.taken)
        = some true ∧
    onPickup worldTaken "A" "p0" = ⟨worldTaken, [], false⟩ := by
  have h := taken_stays_taken seriesMath worldTaken "p0" _ get_worldTaken rfl
  refine ⟨reachable_run seriesMath _ (Reachable.start _), ?_, ?_, h.2.2 "A"⟩
  · rw [get_worldTaken]; rfl
  · rw [h.2.1]; rfl

/-! ## The collision scan -/

theorem hitScan_first (b : Bullet) (pid : String) (p : Player) (post : JsMap Player) :
    ∀ pre : JsMap Player, (∀ e ∈ pre, isTarget b e.1 e.2 = false) → isTarget b pid p = true →
      hitScan b (pre ++ (pid, p) :: post)
        = some (pre ++ (pid, (applyHit b p).1) :: post, (applyHit b p).2) := by
  intro pre
  induction pre with
  | nil => intro _ ht; simp [hitScan, ht]
  | cons e pre ih =>
    obtain ⟨k, q⟩ := e
    intro hpre ht
    have hk : isTarget b k q = false := hpre (k, q) (List.mem_cons_self _ _)
    have := ih (fun e he => hpre e (List.mem_cons_of_mem _ he)) ht
    simp [hitScan, hk, this]

theorem hitScan_none (b : Bullet) :
    ∀ players : JsMap Player, (∀ e ∈ players, isTarget b e.1 e.2 = false) →
      hitScan b players = none := by
  intro players
  induction players with
  | nil => intro _; rfl
  | cons e rest ih =>
    obtain ⟨k, q⟩ := e
    intro h
    have hk : isTarget b k q = false := h (k, q) (List.mem_cons_self _ _)
    simp [hitScan, hk, ih (fun e he => h e (List.mem_cons_of_mem _ he))]

theorem hitScan_cases (b : Bullet) :
    ∀ players : JsMap Player,
      (hitScan b players = none ∧ ∀ e ∈ players, isTarget b e.1 e.2 = false) ∨
      ∃ pre pid p post, players = pre ++ (pid, p) :: post ∧
        (∀ e ∈ pre, isTarget b e.1 e.2 = false) ∧ isTarget b pid p = true ∧
        hitScan b players = some (pre ++ (pid, (applyHit b p).1) :: post, (applyHit b p).2) := by
  intro players
  induction players with
  | nil => exact Or.inl ⟨rfl, fun e he => by simp at he⟩
  | cons e rest ih =>
    obtain ⟨k, q⟩ := e
    by_cases hk : isTarget b k q = true
    · exact Or.inr ⟨[], k, q, rest, rfl, fun e he => by simp at he, hk, by simp [hitScan, hk]⟩
    · have hk' : isTarget b k q = false := by simpa using hk
      rcases ih with ⟨hn, hall⟩ | ⟨pre, pid, p, post, hsplit, hpre, ht, hs⟩
      · refine Or.inl ⟨by simp [hitScan, hk', hn], ?_⟩
        intro e he
        rcases List.mem_cons.1 he with h1 | h1
        · rw [h1]; exact hk'
        · exact hall e h1
      · refine Or.inr ⟨(k, q) :: pre, pid, p, post, by simp [hsplit], ?_, ht, ?_⟩
        · intro e he
          rcases List.mem_cons.1 he with h1 | h1
          · rw [h1]; exact hk'
          · exact hpre e h1
        · simp [hitScan, hk', hs]

theorem isTarget_iff (b : Bullet) (pid : String) (p : Player) :
    isTarget b pid p = true ↔
      p.alive = true ∧ pid ≠ b.owner ∧ ∃ d : ℚ, dist2 p b = JsNum.num d ∧ d < 400 := by
  unfold isTarget
  simp only [Bool.and_eq_true, decide_eq_true_eq, and_assoc]
  constructor
  · rintro ⟨h1, h2, h3⟩
    refine ⟨h1, h2, ?_⟩
    cases hd : dist2 p b with
    | undef => rw [hd] at h3; simp [JsNum.lt] at h3
    | nan => rw [hd] at h3; simp [JsNum.lt] at h3
    | num d =>
      rw [hd] at h3
      simp only [JsNum.lt, decide_eq_true_eq] at h3
      exact ⟨d, rfl, by linarith⟩
  · rintro ⟨h1, h2, d, hd, hlt⟩
    refine ⟨h1, h2, ?_⟩
    rw [hd]
    simp only [JsNum.lt, decide_eq_true_eq]
    linarith

/-! ## The bullet loop, piece by piece -/

theorem tickBullets_cons (players : JsMap Player) (id : String) (b : Bullet)
    (rest : JsMap Bullet) :
    tickBullets players ((id, b) :: rest) =
      ((tickBullets (bulletStep players b).1 rest).1,
       (match (bulletStep players b).2.1 with
        | some b1 => (id, b1) :: (tickBullets (bulletStep players b).1 rest).2.1
        | none => (tickBullets (bulletStep players b).1 rest).2.1),
       (bulletStep players b).2.2 ++ (tickBullets (bulletStep players b).1 rest).2.2) := rfl

theorem tickBullets_append (l1 l2 : JsMap Bullet) :
    ∀ players : JsMap Player,
      tickBullets players (l1 ++ l2) =
        ((tickBullets (tickBullets players l1).1 l2).1,
         (tickBullets players l1).2.1 ++ (tickBullets (tickBullets players l1).1 l2).2.1,
         (tickBullets players l1).2.2 ++ (tickBullets (tickBullets players l1).1 l2).2.2) := by
  induction l1 with
  | nil => intro players; simp [tickBullets]
  | cons e l1 ih =>
    obtain ⟨id, b⟩ := e
    intro players
    simp only [List.cons_append, tickBullets_cons, ih]
    cases (bulletStep players b).2.1 <;> simp

theorem tickBullets_keys_sublist (bullets : JsMap Bullet) :
    ∀ players : JsMap Player,
      (JsMap.keys (tickBullets players bullets).2.1).Sublist (JsMap.keys bullets) := by
  induction bullets with
  | nil => intro players; simp [tickBullets, JsMap.keys]
  | cons e rest ih =>
    obtain ⟨id, b⟩ := e
    intro players
    rw [tickBullets_cons]
    cases (bulletStep players b).2.1 with
    | none => exact List.Sublist.cons _ (ih _)
    | some b1 => exact List.Sublist.cons₂ _ (ih _)

theorem get_tick_removed (w : World) (bpre bpost : JsMap Bullet) (id : String) (b : Bullet)
    (hsplit : w.bullets = bpre ++ (id, b) :: bpost)
    (hnodup : (JsMap.keys w.bullets).Nodup)
    (hgone : (bulletStep (tickBullets w.players bpre).1 b).2.1 = none) :
    JsMap.get (tick w).world.bullets id = none := by
  rw [JsMap.get_eq_none_iff]
  have hk : JsMap.keys w.bullets = JsMap.keys bpre ++ id :: JsMap.keys bpost := by
    simp [hsplit, JsMap.keys]
  rw [hk] at hnodup
  have h1 : id ∉ JsMap.keys bpre := fun h =>
    (List.nodup_append.1 hnodup).2.2 h (List.mem_cons_self _ _)
  have h2 : id ∉ JsMap.keys bpost :=
    (List.nodup_cons.1 (List.nodup_append.1 hnodup).2.1).1
  simp only [tick, hsplit, tickBullets_append, tickBullets_cons, hgone]
  intro hmem
  simp only [JsMap.keys, List.map_append, List.mem_append] at hmem
  rcases hmem with h | h
  · exact h1 ((tickBullets_keys_sublist bpre _).subset h)
  · exact h2 ((tickBullets_keys_sublist bpost _).subset h)

/-! ## Keys of the bullets map are distinct -/

theorem bulletKeys_nodup_step (M : JsMath) {w : World} (m : Msg) (hb : BulletKeysBounded w)
    (h : (JsMap.keys w.bullets).Nodup) : (JsMap.keys (step M w m).world.bullets).Nodup := by
  cases m with
  | connect id x y => exact h
  | disconnect id => exact h
  | playerInput id data =>
    simp only [step, onPlayerInput]
    split
    · exact h
    · split
      · exact h
      · split <;> exact h
  | shoot id payload =>
    simp only [step, onShoot]
    split
    · exact h
    · split
      · exact h
      · split
        · exact h
        · split
          · exact h
          · have hfresh := fresh_bullet_key hb
            simp only [JsMap.set_of_get_none _ hfresh, JsMap.keys, List.map_append, List.map_cons,
              List.map_nil]
            rw [JsMap.get_eq_none_iff] at hfresh
            exact List.Nodup.append h (List.nodup_singleton _)
              (by
                intro a ha hb2
                rw [List.mem_singleton] at hb2
                rw [hb2] at ha
                exact hfresh ha)
  | pickup id pickupId =>
    simp only [step, onPickup]
    split
    · split <;> exact h
    · exact h
  | useMedkit id =>
    simp only [step, onUseMedkit]
    split
    · exact h
    · split
      · exact h
      · split <;> exact h
  | tick => exact List.Nodup.sublist (tickBullets_keys_sublist _ _) h

theorem bulletKeys_nodup_of_reachable (M : JsMath) {w : World} (h : Reachable M w) :
    (JsMap.keys w.bullets).Nodup := by
  induction h with
  | start rnd => simp [initWorld, JsMap.keys]
  | next m hw ih => exact bulletKeys_nodup_step M m (bulletKeysBounded_of_reachable M hw) ih

/-! ## Hit resolution -/

theorem bulletStep_hit (players pre post : JsMap Player) (b : Bullet) (pid : String) (p : Player)
    (hsplit : players = pre ++ (pid, p) :: post)
    (hpre : ∀ e ∈ pre, isTarget (moveBullet b) e.1 e.2 = false)
    (ht : isTarget (moveBullet b) pid p = true) :
    bulletStep players b =
      (pre ++ (pid, (applyHit (moveBullet b) p).1) :: post, none,
        [(applyHit (moveBullet b) p).2]) := by
  unfold bulletStep
  rw [hsplit, hitScan_first _ _ _ _ pre hpre ht]

theorem duel_in_range (vx vy : ℚ) (hv : vx ^ 2 + vy ^ 2 ≤ 600 ^ 2) :
    (120 - (118 + vx * (1 / 60))) * (120 - (118 + vx * (1 / 60)))
      + (100 - (100 + vy * (1 / 60))) * (100 - (100 + vy * (1 / 60))) < 400 := by
  nlinarith [sq_nonneg (vx / 60 + 10), sq_nonneg vy, sq_nonneg vx]

/-- C7: hit resolution.  First part: when the tick reaches the bullet `id ↦ b` and, with `b`
moved, the first player in iteration order that is alive, is not `b`'s owner and lies at squared
distance below `400` is `pid ↦ p`, then only that record changes: if `p.hp - 20 ≤ 0` it gets
hp `0` and `alive = false` and the one event for `b` is `playerDied {id, by: owner}`; otherwise
it gets hp `p.hp - 20`, stays alive, and the one event is `playerHit {id, hp, by: owner}`; the
event is among the tick's events and `id` is no longer a key of the bullets map after the tick.
Second part: a single bullet at `(118, 100)` of speed at most `600` and a player `B` at
`(120, 100)`, alive and not the owner, preceded only by dead players or the owner: with hp `100`
the tick emits `playerHit` with hp `80` and empties the bullets map; with hp `15` it leaves
hp `0`, `alive = false` and emits `playerDied`. -/
theorem hit_resolution :
    (∀ (w : World) (bpre bpost : JsMap Bullet) (id : String) (b : Bullet)
        (pre post : JsMap Player) (pid : String) (p : Player),
      w.bullets = bpre ++ (id, b) :: bpost →
      (JsMap.keys w.bullets).Nodup →
      (tickBullets w.players bpre).1 = pre ++ (pid, p) :: post →
      (∀ e ∈ pre, ¬ (e.2.alive = true ∧ e.1 ≠ b.owner ∧
        ∃ d : ℚ, dist2 e.2 (moveBullet b) = JsNum.num d ∧ d < 400)) →
      p.alive = true → pid ≠ b.owner →
      (∃ d : ℚ, dist2 p (moveBullet b) = JsNum.num d ∧ d < 400) →
      ∃ (p' : Player) (ev : Event),
        bulletStep (pre ++ (pid, p) :: post) b = (pre ++ (pid, p') :: post, none, [ev]) ∧
        (p.hp - 20 ≤ 0 →
          p' = { p with hp := 0, alive := false } ∧ ev = Event.playerDied p.id b.owner) ∧
        (¬ p.hp - 20 ≤ 0 →
          p' = { p with hp := p.hp - 20 } ∧ p'.alive = true ∧
          ev = Event.playerHit p.id (p.hp - 20) b.owner) ∧
        (tick w).events =
          (tickBullets w.players bpre).2.2 ++ ev ::
            ((tickBullets (pre ++ (pid, p') :: post) bpost).2.2 ++
              [Event.worldState (tick w).world.players (tick w).world.bullets w.pickups]) ∧
        JsMap.get (tick w).world.bullets id = none) ∧
    (∀ (w : World) (id : String) (b : Bullet) (pre post : JsMap Player) (B : String)
        (pB : Player) (vx vy : ℚ),
      w.bullets = [(id, b)] →
      b.x = JsNum.num 118 → b.y = JsNum.num 100 →
      b.vx = JsNum.num vx → b.vy = JsNum.num vy → vx ^ 2 + vy ^ 2 ≤ 600 ^ 2 →
      w.players = pre ++ (B, pB) :: post →
      (∀ e ∈ pre, e.2.alive = false ∨ e.1 = b.owner) →
      pB.alive = true → B ≠ b.owner → pB.x = JsNum.num 120 → pB.y = JsNum.num 100 →
      (pB.hp = 100 →
        tick w =
          ⟨{ w with players := pre ++ (B, { pB with hp := 80 }) :: post, bullets := [] },
            [Event.playerHit pB.id 80 b.owner,
             Event.worldState (pre ++ (B, { pB with hp := 80 }) :: post) [] w.pickups],
            false⟩) ∧
      (pB.hp = 15 →
        tick w =
          ⟨{ w with players := pre ++ (B, { pB with hp := 0, alive := false }) :: post,
                    bullets := [] },
            [Event.playerDied pB.id b.owner,
             Event.worldState (pre ++ (B, { pB with hp := 0, alive := false }) :: post) []
               w.pickups],
            false⟩)) := by
  constructor
  · intro w bpre bpost id b pre post pid p hsplit hnodup hplayers hpre ha hown hdist
    have hpre' : ∀ e ∈ pre, isTarget (moveBullet b) e.1 e.2 = false := by
      intro e he
      have h1 := hpre e he
      have h2 := isTarget_iff (moveBullet b) e.1 e.2
      have h3 : ¬ isTarget (moveBullet b) e.1 e.2 = true := fun h => h1 (h2.1 h)
      simpa using h3
    have ht : isTarget (moveBullet b) pid p = true :=
      (isTarget_iff (moveBullet b) pid p).2 ⟨ha, hown, hdist⟩
    have hstep := bulletStep_hit _ pre post b pid p rfl hpre' ht
    have hgone : (bulletStep (tickBullets w.players bpre).1 b).2.1 = none := by
      rw [hplayers, hstep]
    refine ⟨(applyHit (moveBullet b) p).1, (applyHit (moveBullet b) p).2, hstep, ?_, ?_, ?_,
      get_tick_removed w bpre bpost id b hsplit hnodup hgone⟩
    · intro hle
      simp [applyHit, hle, moveBullet]
    · intro hgt
      simp [applyHit, hgt, moveBullet, ha]
    · simp only [tick, hsplit, tickBullets_append, tickBullets_cons, hplayers, hstep,
        List.append_assoc, List.singleton_append, List.cons_append, List.nil_append]
  · intro w id b pre post B pB vx vy hbul hx hy hvx hvy hv hpl hpre ha hown hBx hBy
    have hd : dist2 pB (moveBullet b) =
        JsNum.num ((120 - (118 + vx * (1 / 60))) * (120 - (118 + vx * (1 / 60)))
          + (100 - (100 + vy * (1 / 60))) * (100 - (100 + vy * (1 / 60)))) := by
      simp [dist2, moveBullet, hx, hy, hvx, hvy, hBx, hBy, JsNum.add, JsNum.sub, JsNum.mul]
    have hpre' : ∀ e ∈ pre, isTarget (moveBullet b) e.1 e.2 = false := by
      intro e he
      rcases hpre e he with h | h
      · simp [isTarget, h]
      · simp [isTarget, h, moveBullet]
    have ht : isTarget (moveBullet b) B pB = true :=
      (isTarget_iff (moveBullet b) B pB).2 ⟨ha, hown, _, hd, duel_in_range vx vy hv⟩
    have hstep := bulletStep_hit _ pre post b B pB hpl hpre' ht
    constructor
    · intro hhp
      simp [tick, hbul, tickBullets, hstep, applyHit, hhp, moveBullet]
    · intro hhp
      simp [tick, hbul, tickBullets, hstep, applyHit, hhp, moveBullet]

theorem world_duel :
    worldDuel.bullets = [("b1", duelBullet)] ∧
    worldDuel.players =
      [("A", { newPlayer "A" 200 200 with inventory := { medkit := 0, ammo := 29 } }),
       ("B", newPlayer "B" 120 100)] := by
  simp [worldDuel, run, step, onConnection, onShoot, seedWorld, initWorld, JsMap.set, JsMap.get,
    newPlayer, seriesMath, JsNum.mul, duelBullet]
  rfl

theorem hit_resolution_witness :
    Reachable seriesMath worldDuel ∧
    (tick worldDuel).events =
      [Event.playerHit "B" 80 "A",
       Event.worldState
         [("A", { newPlayer "A" 200 200 with inventory := { medkit := 0, ammo := 29 } }),
          ("B", { newPlayer "B" 120 100 with hp := 80 })] [] worldDuel.pickups] ∧
    (tick worldDuel).world.bullets = [] ∧
    JsMap.get (tick worldDuel).world.bullets "b1" = none := by
  have h := (hit_resolution.2 worldDuel "b1" duelBullet
    [("A", { newPlayer "A" 200 200 with inventory := { medkit := 0, ammo := 29 } })] []
    "B" (newPlayer "B" 120 100) 600 0 world_duel.1 rfl rfl rfl rfl (by norm_num)
    world_duel.2 (by simp [duelBullet]) rfl (by decide) (by simp [newPlayer])
    (by simp [newPlayer])).1 rfl
  have hd : dist2 (newPlayer "B" 120 100) (moveBullet duelBullet) = JsNum.num 64 := by
    simp [dist2, moveBullet, duelBullet, newPlayer, JsNum.add, JsNum.sub, JsNum.mul]
    norm_num
  obtain ⟨p', ev, _, _, _, _, hgone⟩ := hit_resolution.1 worldDuel [] [] "b1" duelBullet
    [("A", { newPlayer "A" 200 200 with inventory := { medkit := 0, ammo := 29 } })] []
    "B" (newPlayer "B" 120 100) world_duel.1 (by rw [world_duel.1]; simp [JsMap.keys])
    world_duel.2 (by simp [duelBullet]) rfl (by decide) ⟨64, hd, by norm_num⟩
  refine ⟨reachable_run seriesMath _ (Reachable.start _), ?_, ?_, hgone⟩
  · rw [h]; rfl
  · rw [h]

/-! ## A bullet spares its owner -/

theorem get_append_cons_ne {α : Type} (pid k : String) (v v' : α) (post : JsMap α)
    (h : pid ≠ k) :
    ∀ pre : JsMap α,
      JsMap.get (pre ++ (pid, v') :: post) k = JsMap.get (pre ++ (pid, v) :: post) k := by
  intro pre
  induction pre with
  | nil => simp [JsMap.get, h]
  | cons e pre ih =>
    obtain ⟨k1, v1⟩ := e
    by_cases h1 : k1 = k <;> simp [JsMap.get, h1, ih]

theorem bulletStep_miss {players : JsMap Player} {b : Bullet}
    (hn : hitScan (moveBullet b) players = none) :
    bulletStep players b =
      (players, (if (moveBullet b).life ≤ 0 then none else some (moveBullet b)), []) := by
  simp only [bulletStep, hn]
  split <;> rfl

theorem bulletStep_some {players : JsMap Player} {b : Bullet} {r : JsMap Player × Event}
    (hs : hitScan (moveBullet b) players = some r) :
    bulletStep players b = (r.1, none, [r.2]) := by
  simp only [bulletStep, hs]

theorem get_bulletStep_owner (players : JsMap Player) (b : Bullet) :
    JsMap.get (bulletStep players b).1 b.owner = JsMap.get players b.owner := by
  rcases hitScan_cases (moveBullet b) players with ⟨hn, _⟩ | ⟨pre, pid, p, post, hsplit, _, ht, hs⟩
  · rw [bulletStep_miss hn]
  · rw [bulletStep_some hs, hsplit]
    have hne : pid ≠ b.owner := ((isTarget_iff _ _ _).1 ht).2.1
    exact get_append_cons_ne pid b.owner p _ post hne pre

theorem get_tickBullets_owner (P : String) (bullets : JsMap Bullet) :
    ∀ players : JsMap Player, (∀ e ∈ bullets, e.2.owner = P) →
      JsMap.get (tickBullets players bullets).1 P = JsMap.get players P := by
  induction bullets with
  | nil => intro players _; rfl
  | cons e rest ih =>
    obtain ⟨id, b⟩ := e
    intro players h
    have hb : b.owner = P := h (id, b) (List.mem_cons_self _ _)
    rw [tickBullets_cons]
    simp only
    rw [ih _ (fun e he => h e (List.mem_cons_of_mem _ he)), ← hb]
    exact get_bulletStep_owner players b

/-- C8: a bullet never hits its own owner.  In any world whose players are stored under their
own id, one round of the bullet loop for `b` leaves the record stored under `b.owner` exactly as
it was, whatever the positions, and emits neither `playerHit` nor `playerDied` with id
`b.owner`; and when every bullet of the store has owner `b.owner`, a whole tick leaves that
record as it was. -/
theorem no_self_hit (w : World) (b : Bullet) (hkeyed : ∀ e ∈ w.players, e.2.id = e.1) :
    JsMap.get (bulletStep w.players b).1 b.owner = JsMap.get w.players b.owner ∧
    (∀ ev ∈ (bulletStep w.players b).2.2,
      (∀ (hp : Int) (byId : String), ev ≠ Event.playerHit b.owner hp byId) ∧
      (∀ byId : String, ev ≠ Event.playerDied b.owner byId)) ∧
    ((∀ e ∈ w.bullets, e.2.owner = b.owner) →
      JsMap.get (tick w).world.players b.owner = JsMap.get w.players b.owner) := by
  refine ⟨get_bulletStep_owner w.players b, ?_, fun h => get_tickBullets_owner b.owner _ _ h⟩
  intro ev hev
  rcases hitScan_cases (moveBullet b) w.players with
    ⟨hn, _⟩ | ⟨pre, pid, p, post, hsplit, _, ht, hs⟩
  · rw [bulletStep_miss hn] at hev
    simp at hev
  · rw [bulletStep_some hs] at hev
    simp only [List.mem_singleton] at hev
    have hne : pid ≠ b.owner := ((isTarget_iff _ _ _).1 ht).2.1
    have hid : p.id = pid := hkeyed (pid, p) (by rw [hsplit]; simp)
    subst hev
    unfold applyHit
    split
    · refine ⟨fun hp byId => by simp, fun byId h => ?_⟩
      simp only [Event.playerDied.injEq] at h
      exact hne (hid ▸ h.1)
    · refine ⟨fun hp byId h => ?_, fun byId => by simp⟩
      simp only [Event.playerHit.injEq] at h
      exact hne (hid ▸ h.1)

theorem no_self_hit_witness :
    (∃ d : ℚ, dist2 (newPlayer "A" 100 100) (moveBullet shotBullet) = JsNum.num d ∧ d < 400) ∧
    JsMap.get (tick worldShot).world.players "A" = JsMap.get worldShot.players "A" := by
  have h := no_self_hit worldShot shotBullet
    (by rw [bullets_worldShot.2]; simp [newPlayer])
  refine ⟨⟨100, ?_, by norm_num⟩, h.2.2 (by rw [bullets_worldShot.1]; simp [shotBullet])⟩
  simp [dist2, moveBullet, shotBullet, newPlayer, JsNum.add, JsNum.sub, JsNum.mul]
  norm_num

/-! ## First match -/

theorem totalHp_split (pre post : JsMap Player) (pid : String) (p : Player) :
    totalHp (pre ++ (pid, p) :: post) = totalHp pre + p.hp + totalHp post := by
  simp [totalHp, add_assoc]

theorem applyHit_hp (b : Bullet) (p : Player) :
    (applyHit b p).1.hp = (if p.hp - 20 ≤ 0 then 0 else p.hp - 20) ∧
    (applyHit b p).1.alive = (if p.hp - 20 ≤ 0 then false else p.alive) ∧
    isHitEvent (applyHit b p).2 = true := by
  unfold applyHit
  split <;> simp [isHitEvent]

theorem totalHp_bulletStep (players : JsMap Player) (b : Bullet) :
    totalHp players - totalHp (bulletStep players b).1 ≤ 20 ∧
    (bulletStep players b).2.2.length ≤ 1 := by
  rcases hitScan_cases (moveBullet b) players with ⟨hn, _⟩ | ⟨pre, pid, p, post, hsplit, _, ht, hs⟩
  · rw [bulletStep_miss hn]; simp
  · rw [bulletStep_some hs, hsplit]
    simp only [totalHp_split, (applyHit_hp (moveBullet b) p).1, List.length_singleton, le_refl,
      and_true]
    split <;> omega

theorem totalHp_tickBullets (bullets : JsMap Bullet) :
    ∀ players : JsMap Player,
      totalHp players - totalHp (tickBullets players bullets).1 ≤ 20 * bullets.length ∧
      (tickBullets players bullets).2.2.length ≤ bullets.length := by
  induction bullets with
  | nil => intro players; simp [tickBullets]
  | cons e rest ih =>
    obtain ⟨id, b⟩ := e
    intro players
    have h1 := totalHp_bulletStep players b
    have h2 := ih (bulletStep players b).1
    rw [tickBullets_cons]
    simp only [List.length_cons, List.length_append]
    constructor
    · push_cast; omega
    · omega

/-! ## Expiry -/

theorem step_bullet_keys (M : JsMath) (w : World) (m : Msg) :
    w.bulletCounter ≤ (step M w m).world.bulletCounter ∧
    ∀ k ∈ JsMap.keys (step M w m).world.bullets,
      k ∈ JsMap.keys w.bullets ∨
        (k = "b" ++ toString (w.bulletCounter + 1) ∧
          w.bulletCounter + 1 ≤ (step M w m).world.bulletCounter) := by
  cases m with
  | connect id x y => exact ⟨le_refl _, fun k hk => Or.inl hk⟩
  | disconnect id => exact ⟨le_refl _, fun k hk => Or.inl hk⟩
  | playerInput id data =>
    simp only [step, onPlayerInput]
    split
    · exact ⟨le_refl _, fun k hk => Or.inl hk⟩
    · split
      · exact ⟨le_refl _, fun k hk => Or.inl hk⟩
      · split <;> exact ⟨le_refl _, fun k hk => Or.inl hk⟩
  | shoot id payload =>
    simp only [step, onShoot]
    split
    · exact ⟨le_refl _, fun k hk => Or.inl hk⟩
    · split
      · exact ⟨le_refl _, fun k hk => Or.inl hk⟩
      · split
        · exact ⟨le_refl _, fun k hk => Or.inl hk⟩
        · split
          · exact ⟨Nat.le_succ _, fun k hk => Or.inl hk⟩
          · refine ⟨Nat.le_succ _, fun k hk => ?_⟩
            rcases (JsMap.keys_set _ _ _ _).1 hk with h1 | h1
            · exact Or.inr ⟨h1, le_refl _⟩
            · exact Or.inl h1
  | pickup id pickupId =>
    simp only [step, onPickup]
    split
    · split <;> exact ⟨le_refl _, fun k hk => Or.inl hk⟩
    · exact ⟨le_refl _, fun k hk => Or.inl hk⟩
  | useMedkit id =>
    simp only [step, onUseMedkit]
    split
    · exact ⟨le_refl _, fun k hk => Or.inl hk⟩
    · split
      · exact ⟨le_refl _, fun k hk => Or.inl hk⟩
      · split <;> exact ⟨le_refl _, fun k hk => Or.inl hk⟩
  | tick => exact ⟨le_refl _, fun k hk => Or.inl (tickBullets_keys hk)⟩

theorem worldState_of_step (M : JsMath) (w : World) (m : Msg) (ps : JsMap Player)
    (bs : JsMap Bullet) (pk : JsMap Pickup)
    (h : Event.worldState ps bs pk ∈ (step M w m).events) :
    bs = (step M w m).world.bullets := by
  cases m with
  | connect id x y => simp [step, onConnection] at h
  | disconnect id => simp [step, onDisconnect] at h
  | playerInput id data =>
    simp only [step, onPlayerInput] at h
    split at h
    · simp [Outcome.quiet] at h
    · split at h
      · simp [Outcome.quiet] at h
      · split at h <;> simp [Outcome.quiet] at h
  | shoot id payload =>
    simp only [step, onShoot] at h
    split at h
    · simp [Outcome.quiet] at h
    · split at h
      · simp [Outcome.quiet] at h
      · split at h
        · simp [Outcome.quiet] at h
        · split at h <;> simp at h
  | pickup id pickupId =>
    simp only [step, onPickup] at h
    split at h
    · split at h <;> simp [Outcome.quiet] at h
    · simp [Outcome.quiet] at h
  | useMedkit id =>
    simp only [step, onUseMedkit] at h
    split at h
    · simp [Outcome.quiet] at h
    · split at h
      · simp [Outcome.quiet] at h
      · split at h <;> simp [Outcome.quiet] at h
  | tick =>
    simp only [step, tick, List.mem_append, List.mem_singleton, Event.worldState.injEq] at h ⊢
    rcases h with h | h
    · exfalso
      have hall : ∀ (bullets : JsMap Bullet) (players : JsMap Player),
          ∀ ev ∈ (tickBullets players bullets).2.2, isHitEvent ev = true := by
        intro bullets
        induction bullets with
        | nil => intro players ev hev; simp [tickBullets] at hev
        | cons e rest ih =>
          obtain ⟨id, b⟩ := e
          intro players ev hev
          rw [tickBullets_cons] at hev
          rcases List.mem_append.1 hev with h1 | h1
          · rcases hitScan_cases (moveBullet b) players with
              ⟨hn, _⟩ | ⟨pre, pid, p, post, _, _, _, hs⟩
            · rw [bulletStep_miss hn] at h1; simp at h1
            · rw [bulletStep_some hs] at h1
              simp only [List.mem_singleton] at h1
              rw [h1]; exact (applyHit_hp _ _).2.2
          · exact ih _ ev h1
      have := hall _ _ _ h
      simp [isHitEvent] at this
    · exact h.2.1

theorem gone_stays_gone (M : JsMath) (id : String) (n : Nat) (hid : id = "b" ++ toString n)
    (ms : List Msg) :
    ∀ w : World, n ≤ w.bulletCounter → id ∉ JsMap.keys w.bullets →
      id ∉ JsMap.keys (run M w ms).bullets ∧
      ∀ ps bs pk, Event.worldState ps bs pk ∈ runEvents M w ms → id ∉ JsMap.keys bs := by
  induction ms with
  | nil => intro w _ h; exact ⟨h, fun ps bs pk hev => by simp [runEvents] at hev⟩
  | cons m ms ih =>
    intro w hn h
    obtain ⟨hmono, hkeys⟩ := step_bullet_keys M w m
    have hnext : id ∉ JsMap.keys (step M w m).world.bullets := by
      intro hk
      rcases hkeys id hk with h1 | ⟨h1, _⟩
      · exact h h1
      · rw [hid] at h1
        have := bulletId_injective h1
        omega
    obtain ⟨h1, h2⟩ := ih (step M w m).world (le_trans hn hmono) hnext
    refine ⟨h1, fun ps bs pk hev => ?_⟩
    simp only [runEvents, List.mem_append] at hev
    rcases hev with h3 | h3
    · rw [worldState_of_step M w m ps bs pk h3]; exact hnext
    · exact h2 ps bs pk h3

/-- C10: expiry.  On a reachable world, after a tick no bullet of the bullets map has life
`≤ 0`, and the `worldState` event of that tick carries exactly that map.  A bullet whose
decremented life is `≤ 0` and for which the collision scan finds nobody is deleted in that
round without any event, and its key is absent after the tick.  A key that was in the map
before a tick and is not in it afterwards is in the bullets map of no later state and of no
later `worldState` event. -/
theorem expiry (M : JsMath) (w : World) (hw : Reachable M w) :
    (∀ e ∈ (tick w).world.bullets, 0 < e.2.life) ∧
    (∃ evs, (tick w).events =
        evs ++ [Event.worldState (tick w).world.players (tick w).world.bullets w.pickups]) ∧
    (∀ ps bs pk, Event.worldState ps bs pk ∈ (tick w).events →
      bs = (tick w).world.bullets ∧ ∀ e ∈ bs, 0 < e.2.life) ∧
    (∀ (bpre bpost : JsMap Bullet) (id : String) (b : Bullet),
      w.bullets = bpre ++ (id, b) :: bpost →
      hitScan (moveBullet b) (tickBullets w.players bpre).1 = none →
      (moveBullet b).life ≤ 0 →
      bulletStep (tickBullets w.players bpre).1 b = ((tickBullets w.players bpre).1, none, []) ∧
      JsMap.get (tick w).world.bullets id = none ∧
      (tick w).events = (tickBullets w.players bpre).2.2 ++
        ((tickBullets (tickBullets w.players bpre).1 bpost).2.2 ++
          [Event.worldState (tick w).world.players (tick w).world.bullets w.pickups])) ∧
    (∀ id : String, id ∈ JsMap.keys w.bullets → id ∉ JsMap.keys (tick w).world.bullets →
      ∀ ms : List Msg,
        id ∉ JsMap.keys (run M (tick w).world ms).bullets ∧
        ∀ ps bs pk, Event.worldState ps bs pk ∈ runEvents M (tick w).world ms →
          id ∉ JsMap.keys bs) := by
  have hlife : ∀ e ∈ (tick w).world.bullets, 0 < e.2.life := by
    intro e he
    obtain ⟨b, _, h2, h3⟩ := tickBullets_mem w.bullets w.players e he
    rw [h2]; exact h3
  refine ⟨hlife, ⟨_, rfl⟩, ?_, ?_, ?_⟩
  · intro ps bs pk hev
    have h := worldState_of_step M w Msg.tick ps bs pk hev
    simp only [step] at h
    exact ⟨h, fun e he => hlife e (h ▸ he)⟩
  · intro bpre bpost id b hsplit hmiss hlife0
    have hstep : bulletStep (tickBullets w.players bpre).1 b
        = ((tickBullets w.players bpre).1, none, []) := by
      rw [bulletStep_miss hmiss]; simp [hlife0]
    refine ⟨hstep, get_tick_removed w bpre bpost id b hsplit
      (bulletKeys_nodup_of_reachable M hw) (by rw [hstep]), ?_⟩
    simp only [tick, hsplit, tickBullets_append, tickBullets_cons, hstep, List.nil_append,
      List.append_assoc]
  · intro id hin hout ms
    obtain ⟨n, hn, hid⟩ := bulletKeysBounded_of_reachable M hw id hin
    exact gone_stays_gone M id n hid ms (tick w).world hn hout

theorem tick_worldAged (n : Nat) (h : n < 119) :
    (step seriesMath (worldAged n) Msg.tick).world = worldAged (n + 1) := by
  have hlife : ¬ (2000 - (n : ℚ) * (50 / 3) - 1000 / 60 ≤ 0) := by
    have : (n : ℚ) < 119 := by exact_mod_cast h
    intro hc
    linarith
  simp only [step, tick, worldAged, bullets_worldShot.2, tickBullets, agedBullet, shotBullet]
  simp [hitScan, isTarget, bulletStep, moveBullet, hlife, JsNum.add, JsNum.mul]
  constructor
  · ring
  · ring

theorem run_ticks_worldAged (n : Nat) (h : n ≤ 119) :
    run seriesMath (worldAged 0) (List.replicate n Msg.tick) = worldAged n := by
  induction n with
  | zero => rfl
  | succ n ih =>
    have h1 : List.replicate (n + 1) Msg.tick = List.replicate n Msg.tick ++ [Msg.tick] := by
      rw [List.replicate_succ']
    have hrun : ∀ (ms1 ms2 : List Msg) (w : World),
        run seriesMath w (ms1 ++ ms2) = run seriesMath (run seriesMath w ms1) ms2 := by
      intro ms1
      induction ms1 with
      | nil => intro ms2 w; rfl
      | cons m ms1 ih1 => intro ms2 w; exact ih1 ms2 _
    rw [h1, hrun, ih (by omega)]
    exact tick_worldAged n (by omega)

theorem reachable_worldAged (n : Nat) (h : n ≤ 119) : Reachable seriesMath (worldAged n) := by
  rw [← run_ticks_worldAged n h]
  have h0 : worldAged 0 = worldShot := by
    have hb := bullets_worldShot.1
    simp only [worldAged, shotBullet, agedBullet] at hb ⊢
    rw [show worldShot = { worldShot with bullets := worldShot.bullets } from rfl, hb]
    simp
  rw [h0]
  exact reachable_run seriesMath _ (reachable_run seriesMath _ (Reachable.start _))

theorem expiry_witness :
    Reachable seriesMath (worldAged 119) ∧
    (worldAged 119).bullets.map (fun e => (e.1, e.2.life)) = [("b1", 50 / 3)] ∧
    JsMap.get (tick (worldAged 119)).world.bullets "b1" = none ∧
    (tick (worldAged 119)).events =
      [Event.worldState (tick (worldAged 119)).world.players (tick (worldAged 119)).world.bullets
        (worldAged 119).pickups] := by
  have hr := reachable_worldAged 119 (le_refl _)
  have hmiss : hitScan (moveBullet (agedBullet 119)) (worldAged 119).players = none := by
    simp [worldAged, bullets_worldShot.2, hitScan, isTarget, moveBullet, shotBullet, agedBullet]
  have h := (expiry seriesMath (worldAged 119) hr).2.2.2.1 [] [] "b1" _ rfl hmiss
    (by simp [moveBullet, shotBullet, agedBullet]; norm_num)
  refine ⟨hr, ?_, h.2.1, ?_⟩
  · simp [worldAged, shotBullet, agedBullet]; norm_num
  · rw [h.2.2]; rfl

theorem health_invariant_witness :
    Reachable seriesMath worldHurt ∧
    JsMap.get worldHurt.players "C" = some { newPlayer "C" 200 200 with hp := 60 } ∧
    (0 : Int) ≤ 60 ∧ (60 : Int) ≤ 100 ∧ (true = false ↔ (60 : Int) = 0) :=
  ⟨reachable_worldHurt, get_worldHurt.1,
    health_invariant seriesMath worldHurt reachable_worldHurt "C" _ get_worldHurt.1⟩

/-! ## First match, in the tick -/

theorem applyHit_eq (b : Bullet) (p : Player) :
    applyHit (moveBullet b) p =
      ((if p.hp - 20 ≤ 0 then { p with hp := 0, alive := false } else { p with hp := p.hp - 20 }),
       (if p.hp - 20 ≤ 0 then Event.playerDied p.id b.owner
        else Event.playerHit p.id (p.hp - 20) b.owner)) := by
  unfold applyHit
  split <;> simp [moveBullet]

theorem tick_at_bullet (w : World) (bpre bpost : JsMap Bullet) (id : String) (b : Bullet)
    (hsplit : w.bullets = bpre ++ (id, b) :: bpost) :
    (tick w).world.players =
      (tickBullets (bulletStep (tickBullets w.players bpre).1 b).1 bpost).1 ∧
    (tick w).events =
      (tickBullets w.players bpre).2.2 ++
        ((bulletStep (tickBullets w.players bpre).1 b).2.2 ++
          ((tickBullets (bulletStep (tickBullets w.players bpre).1 b).1 bpost).2.2 ++
            [Event.worldState (tick w).world.players (tick w).world.bullets w.pickups])) := by
  simp only [tick, hsplit, tickBullets_append, tickBullets_cons, List.append_assoc, and_self]

/-- C9: first-match policy, in the tick.  Let the bullets map be `bpre`, then `id ↦ b`, then
`bpost`, and take the players as the bullets of `bpre` have left them.  Either none of them is
alive, not `b`'s owner and at squared distance below `400` from the moved `b`: then `b` changes
no player and emits nothing, and the tick goes on with `bpost` from those same players.  Or
there is a first such player `pid ↦ p` in iteration order: then `b` changes that record and no
other (hp `0` and dead when `p.hp - 20 ≤ 0`, else hp `p.hp - 20`), emits the one event for
`pid`, and the tick goes on with `bpost` from the players so changed; a later qualifying player
is not touched by `b`.  With a single bullet in the map this gives the players and the events
of the whole tick.  The same holds for one round of the loop taken alone.  Hence in one tick
the total health lost over all players is at most `20` times the number of bullets at the start
of the tick, and the number of `playerHit` and `playerDied` events is at most that number. -/
theorem first_match (w : World) :
    (∀ (bpre bpost : JsMap Bullet) (id : String) (b : Bullet),
      w.bullets = bpre ++ (id, b) :: bpost →
      ((∀ e ∈ (tickBullets w.players bpre).1, ¬ (e.2.alive = true ∧ e.1 ≠ b.owner ∧
          ∃ d : ℚ, dist2 e.2 (moveBullet b) = JsNum.num d ∧ d < 400)) ∧
        (tick w).world.players = (tickBullets (tickBullets w.players bpre).1 bpost).1 ∧
        (tick w).events =
          (tickBullets w.players bpre).2.2 ++
            ((tickBullets (tickBullets w.players bpre).1 bpost).2.2 ++
              [Event.worldState (tick w).world.players (tick w).world.bullets w.pickups])) ∨
      ∃ (pre : JsMap Player) (pid : String) (p : Player) (post : JsMap Player),
        (tickBullets w.players bpre).1 = pre ++ (pid, p) :: post ∧
        (∀ e ∈ pre, ¬ (e.2.alive = true ∧ e.1 ≠ b.owner ∧
          ∃ d : ℚ, dist2 e.2 (moveBullet b) = JsNum.num d ∧ d < 400)) ∧
        p.alive = true ∧ pid ≠ b.owner ∧
        (∃ d : ℚ, dist2 p (moveBullet b) = JsNum.num d ∧ d < 400) ∧
        (tick w).world.players =
          (tickBullets
            (pre ++ (pid, (if p.hp - 20 ≤ 0 then { p with hp := 0, alive := false }
                           else { p with hp := p.hp - 20 })) :: post) bpost).1 ∧
        (tick w).events =
          (tickBullets w.players bpre).2.2 ++
            ((if p.hp - 20 ≤ 0 then Event.playerDied p.id b.owner
              else Event.playerHit p.id (p.hp - 20) b.owner) ::
              ((tickBullets
                (pre ++ (pid, (if p.hp - 20 ≤ 0 then { p with hp := 0, alive := false }
                               else { p with hp := p.hp - 20 })) :: post) bpost).2.2 ++
                [Event.worldState (tick w).world.players (tick w).world.bullets w.pickups]))) ∧
    (∀ (id : String) (b : Bullet), w.bullets = [(id, b)] →
      ((∀ e ∈ w.players, ¬ (e.2.alive = true ∧ e.1 ≠ b.owner ∧
          ∃ d : ℚ, dist2 e.2 (moveBullet b) = JsNum.num d ∧ d < 400)) ∧
        (tick w).world.players = w.players ∧
        (tick w).events =
          [Event.worldState w.players (tick w).world.bullets w.pickups]) ∨
      ∃ (pre : JsMap Player) (pid : String) (p : Player) (post : JsMap Player),
        w.players = pre ++ (pid, p) :: post ∧
        (∀ e ∈ pre, ¬ (e.2.alive = true ∧ e.1 ≠ b.owner ∧
          ∃ d : ℚ, dist2 e.2 (moveBullet b) = JsNum.num d ∧ d < 400)) ∧
        p.alive = true ∧ pid ≠ b.owner ∧
        (∃ d : ℚ, dist2 p (moveBullet b) = JsNum.num d ∧ d < 400) ∧
        (tick w).world.players =
          pre ++ (pid, (if p.hp - 20 ≤ 0 then { p with hp := 0, alive := false }
                        else { p with hp := p.hp - 20 })) :: post ∧
        (tick w).events =
          [(if p.hp - 20 ≤ 0 then Event.playerDied p.id b.owner
            else Event.playerHit p.id (p.hp - 20) b.owner),
           Event.worldState (tick w).world.players [] w.pickups]) ∧
    (∀ b : Bullet,
      ((bulletStep w.players b).1 = w.players ∧ (bulletStep w.players b).2.2 = [] ∧
        ∀ e ∈ w.players, ¬ (e.2.alive = true ∧ e.1 ≠ b.owner ∧
          ∃ d : ℚ, dist2 e.2 (moveBullet b) = JsNum.num d ∧ d < 400)) ∨
      ∃ (pre : JsMap Player) (pid : String) (p p' : Player) (post : JsMap Player),
        w.players = pre ++ (pid, p) :: post ∧
        (∀ e ∈ pre, ¬ (e.2.alive = true ∧ e.1 ≠ b.owner ∧
          ∃ d : ℚ, dist2 e.2 (moveBullet b) = JsNum.num d ∧ d < 400)) ∧
        p.alive = true ∧ pid ≠ b.owner ∧
        (∃ d : ℚ, dist2 p (moveBullet b) = JsNum.num d ∧ d < 400) ∧
        (bulletStep w.players b).1 = pre ++ (pid, p') :: post ∧
        p'.hp = (if p.hp - 20 ≤ 0 then 0 else p.hp - 20) ∧
        (bulletStep w.players b).2.2.length = 1) ∧
    totalHp w.players - totalHp (tick w).world.players ≤ 20 * w.bullets.length ∧
    ((tick w).events.filter isHitEvent).length ≤ w.bullets.length := by
  have hnot : ∀ (b : Bullet) (l : JsMap Player),
      (∀ e ∈ l, isTarget (moveBullet b) e.1 e.2 = false) →
      ∀ e ∈ l, ¬ (e.2.alive = true ∧ e.1 ≠ b.owner ∧
        ∃ d : ℚ, dist2 e.2 (moveBullet b) = JsNum.num d ∧ d < 400) := by
    intro b l hl e he hc
    have := (isTarget_iff (moveBullet b) e.1 e.2).2 hc
    rw [hl e he] at this
    exact absurd this (by decide)
  have hgen : ∀ (bpre bpost : JsMap Bullet) (id : String) (b : Bullet),
      w.bullets = bpre ++ (id, b) :: bpost →
      ((∀ e ∈ (tickBullets w.players bpre).1, ¬ (e.2.alive = true ∧ e.1 ≠ b.owner ∧
          ∃ d : ℚ, dist2 e.2 (moveBullet b) = JsNum.num d ∧ d < 400)) ∧
        (tick w).world.players = (tickBullets (tickBullets w.players bpre).1 bpost).1 ∧
        (tick w).events =
          (tickBullets w.players bpre).2.2 ++
            ((tickBullets (tickBullets w.players bpre).1 bpost).2.2 ++
              [Event.worldState (tick w).world.players (tick w).world.bullets w.pickups])) ∨
      ∃ (pre : JsMap Player) (pid : String) (p : Player) (post : JsMap Player),
        (tickBullets w.players bpre).1 = pre ++ (pid, p) :: post ∧
        (∀ e ∈ pre, ¬ (e.2.alive = true ∧ e.1 ≠ b.owner ∧
          ∃ d : ℚ, dist2 e.2 (moveBullet b) = JsNum.num d ∧ d < 400)) ∧
        p.alive = true ∧ pid ≠ b.owner ∧
        (∃ d : ℚ, dist2 p (moveBullet b) = JsNum.num d ∧ d < 400) ∧
        (tick w).world.players =
          (tickBullets
            (pre ++ (pid, (if p.hp - 20 ≤ 0 then { p with hp := 0, alive := false }
                           else { p with hp := p.hp - 20 })) :: post) bpost).1 ∧
        (tick w).events =
          (tickBullets w.players bpre).2.2 ++
            ((if p.hp - 20 ≤ 0 then Event.playerDied p.id b.owner
              else Event.playerHit p.id (p.hp - 20) b.owner) ::
              ((tickBullets
                (pre ++ (pid, (if p.hp - 20 ≤ 0 then { p with hp := 0, alive := false }
                               else { p with hp := p.hp - 20 })) :: post) bpost).2.2 ++
                [Event.worldState (tick w).world.players (tick w).world.bullets w.pickups])) := by
    intro bpre bpost id b hsplit
    obtain ⟨hpl, hev⟩ := tick_at_bullet w bpre bpost id b hsplit
    rcases hitScan_cases (moveBullet b) (tickBullets w.players bpre).1 with
      ⟨hn, hall⟩ | ⟨pre, pid, p, post, hps, hpre, ht, hs⟩
    · left
      rw [bulletStep_miss hn] at hpl hev
      exact ⟨hnot b _ hall, hpl, by simpa using hev⟩
    · right
      obtain ⟨ha, hown, hd⟩ := (isTarget_iff _ _ _).1 ht
      rw [bulletStep_some hs, applyHit_eq] at hpl hev
      exact ⟨pre, pid, p, post, hps, hnot b _ hpre, ha, hown, hd, hpl, by simpa using hev⟩
  refine ⟨hgen, ?_, ?_, (totalHp_tickBullets w.bullets w.players).1, ?_⟩
  · intro id b hbul
    rcases hgen [] [] id b (by simpa using hbul) with
      ⟨hall, hpl, hev⟩ | ⟨pre, pid, p, post, hps, hpre, ha, hown, hd, hpl, hev⟩
    · left
      simp only [tickBullets, List.nil_append] at hall hpl hev
      refine ⟨hall, hpl, ?_⟩
      rw [hev, hpl]
    · right
      simp only [tickBullets, List.nil_append] at hps hpl hev
      have hbul2 : (tick w).world.bullets = [] := by
        have hstep := bulletStep_hit w.players pre post b pid p hps
          (by
            intro e he
            have h1 := hpre e he
            have h3 : ¬ isTarget (moveBullet b) e.1 e.2 = true :=
              fun h => h1 ((isTarget_iff _ _ _).1 h)
            simpa using h3)
          ((isTarget_iff _ _ _).2 ⟨ha, hown, hd⟩)
        simp [tick, hbul, tickBullets, hstep]
      refine ⟨pre, pid, p, post, hps, hpre, ha, hown, hd, hpl, ?_⟩
      rw [hev, hbul2]
  · intro b
    rcases hitScan_cases (moveBullet b) w.players with
      ⟨hn, hall⟩ | ⟨pre, pid, p, post, hsplit, hpre, ht, hs⟩
    · left
      refine ⟨?_, ?_, hnot b _ hall⟩
      · rw [bulletStep_miss hn]
      · rw [bulletStep_miss hn]
    · right
      obtain ⟨ha, hown, hd⟩ := (isTarget_iff _ _ _).1 ht
      refine ⟨pre, pid, p, (applyHit (moveBullet b) p).1, post, hsplit, hnot b _ hpre, ha, hown,
        hd, ?_, (applyHit_hp _ _).1, ?_⟩
      · rw [bulletStep_some hs]
      · rw [bulletStep_some hs]; rfl
  · have h := (totalHp_tickBullets w.bullets w.players).2
    simp only [tick, List.filter_append, List.length_append, List.filter_cons, List.filter_nil,
      isHitEvent]
    have h2 := List.length_filter_le isHitEvent (tickBullets w.players w.bullets).2.2
    simp only [Bool.false_eq_true, if_false, List.length_nil, add_zero]
    omega

theorem world_three :
    worldThree.bullets = [("b1", threeBullet)] ∧
    worldThree.players =
      [("A", { newPlayer "A" 200 200 with inventory := { medkit := 0, ammo := 29 } }),
       ("B", newPlayer "B" 200 200), ("C", newPlayer "C" 200 200)] := by
  simp [worldThree, run, step, onConnection, onShoot, seedWorld, initWorld, JsMap.set, JsMap.get,
    newPlayer, seriesMath, JsNum.mul, threeBullet, shotPayload]
  rfl

theorem three_in_range (id : String) :
    ∃ d : ℚ, dist2 (newPlayer id 200 200) (moveBullet threeBullet) = JsNum.num d ∧ d < 400 := by
  refine ⟨100, ?_, by norm_num⟩
  simp [dist2, moveBullet, threeBullet, newPlayer, JsNum.add, JsNum.sub, JsNum.mul]
  norm_num

theorem first_match_witness :
    Reachable seriesMath worldThree ∧
    (∃ d : ℚ, dist2 (newPlayer "C" 200 200) (moveBullet threeBullet) = JsNum.num d ∧ d < 400) ∧
    (tick worldThree).world.players =
      [("A", { newPlayer "A" 200 200 with inventory := { medkit := 0, ammo := 29 } }),
       ("B", { newPlayer "B" 200 200 with hp := 80 }), ("C", newPlayer "C" 200 200)] ∧
    (tick worldThree).events =
      [Event.playerHit "B" 80 "A",
       Event.worldState (tick worldThree).world.players [] worldThree.pickups] := by
  refine ⟨reachable_run seriesMath _ (Reachable.start _), three_in_range "C", ?_⟩
  have hB : (newPlayer "B" 200 200).alive = true ∧ "B" ≠ threeBullet.owner ∧
      ∃ d : ℚ, dist2 (newPlayer "B" 200 200) (moveBullet threeBullet) = JsNum.num d ∧ d < 400 :=
    ⟨rfl, by decide, three_in_range "B"⟩
  rcases (first_match worldThree).2.1 "b1" threeBullet world_three.1 with
    ⟨hall, _, _⟩ | ⟨pre, pid, p, post, hps, hpre, ha, hown, hd, hpl, hev⟩
  · exact absurd hB (hall ("B", newPlayer "B" 200 200) (by rw [world_three.2]; simp))
  · rw [world_three.2] at hps
    rcases pre with _ | ⟨e1, _ | ⟨e2, rest⟩⟩
    · simp only [List.nil_append, List.cons.injEq, Prod.mk.injEq] at hps
      exact absurd hps.1.1.symm hown
    · simp only [List.cons_append, List.nil_append, List.cons.injEq, Prod.mk.injEq] at hps
      obtain ⟨he1, ⟨hpid, hp⟩, hpost⟩ := hps
      subst he1 hpid hp hpost
      rw [hev, hpl]
      simp [newPlayer, threeBullet]
    · simp only [List.cons_append, List.cons.injEq] at hps
      have he2 : e2 = ("B", newPlayer "B" 200 200) := hps.2.1.symm
      exact absurd (by rw [he2]; exact hB) (hpre e2 (by simp))

end Aprnom
